import Mathlib

/-!
Verification of the workspace project manager (ProjectManager,
InMemoryLanguageServiceHost, ProjectConfiguration) of the
javascript-typescript language server, against its natural-language
specification.

The embedding follows the source file project-manager.ts.  Paths and URIs
are modelled as lists of characters (`FPath`), since the source manipulates
them with index/substring operations.  The repository's `util.ts` (the one
exporting `isJSTSFile`, `isConfigFile`, `isPackageJsonFile`,
`isGlobalTSFile`, `isDeclarationFile`, `toUnixPath`, `uri2path`,
`path2uri`) is not part of the sources given, so those helpers are
modelled from the specification and marked as such in their doc comments.
Everything else is translated from project-manager.ts.
-/

/-- A file path or URI, as a list of characters. -/
abbrev FPath := List Char

/-- Conversion from a string literal to a `FPath`. -/
def pth (s : String) : FPath := s.data

/-- `containsSub hay needle` models the JavaScript `hay.includes(needle)`
substring test (and an unanchored regular-expression literal test). -/
def containsSub : FPath → FPath → Bool
  | hay, needle =>
    needle.isPrefixOf hay ||
      match hay with
      | [] => false
      | _ :: t => containsSub t needle

/-- `endsWithP l suf` is true when `suf` is a suffix of `l`
(JavaScript `endsWith`, or an end-anchored regular expression). -/
def endsWithP (l suf : FPath) : Bool := suf.isSuffixOf l

/-- Modelled from the spec: `toUnixPath` from the missing `util.ts`
normalizes a path to forward slashes (every backslash becomes a slash). -/
def toUnixPath (p : FPath) : FPath := p.map (fun c => if c = '\\' then '/' else c)

/-- Modelled from the spec: `uri2path` from the missing `util.ts`; the
spec says a URI maps bijectively to an absolute file path, `file` scheme.
We model the mapping as stripping the `file://` scheme. -/
def uri2path (u : FPath) : FPath :=
  if (pth "file://").isPrefixOf u then u.drop 7 else u

/-- Modelled from the spec: `path2uri` from the missing `util.ts`, the
inverse direction of the URI/path bijection. -/
def path2uri (p : FPath) : FPath := pth "file://" ++ p

/-- Modelled from the spec: `isJSTSFile` from the missing `util.ts`.
A JS/TS source file, classified by extension (spec section 3 lists the
source extensions `.js`, `.jsx`, `.ts`, `.tsx`). -/
def isJSTSFile (p : FPath) : Bool :=
  endsWithP p (pth ".js") || endsWithP p (pth ".jsx") ||
  endsWithP p (pth ".ts") || endsWithP p (pth ".tsx")

/-- Modelled from the spec: `isConfigFile` from the missing `util.ts`.
Spec section 4.2: a config file matches `tsconfig.json` or
`jsconfig.json` anywhere (i.e. as the basename, at any depth). -/
def isConfigFile (p : FPath) : Bool :=
  p = pth "tsconfig.json" || p = pth "jsconfig.json" ||
  endsWithP p (pth "/tsconfig.json") || endsWithP p (pth "/jsconfig.json")

/-- Modelled from the spec: `isPackageJsonFile` from the missing
`util.ts`: the basename is `package.json`. -/
def isPackageJsonFile (p : FPath) : Bool :=
  p = pth "package.json" || endsWithP p (pth "/package.json")

/-- Modelled from the spec: `isDeclarationFile` from the missing
`util.ts`.  Spec section 4.2: declaration files end in `.d.` plus a
TypeScript extension. -/
def isDeclarationFile (p : FPath) : Bool :=
  endsWithP p (pth ".d.ts") || endsWithP p (pth ".d.tsx")

/-- Modelled from the spec: `isGlobalTSFile` from the missing `util.ts`.
Spec glossary: a global ambient-declarations file is a declaration file
directly under the workspace root, i.e. with at most one slash in its
path. -/
def isGlobalTSFile (p : FPath) : Bool :=
  isDeclarationFile p && (p.filter (fun c => c = '/')).length ≤ 1

/-!
## C1: the `ensureOwnFiles` URI filter

Source, project-manager.ts line 269:

  .filter(uri => !uri.includes('/node_modules/') && isJSTSFile(uri)
                 || isConfigFile(uri) || isPackageJsonFile(uri))

JavaScript `&&` binds tighter than `||`, so the node_modules exclusion
applies only to the JS/TS-file disjunct.
-/

/-- The URI filter of `ProjectManager.ensureOwnFiles`, translated with
JavaScript operator precedence (`a && b || c || d` is `((a && b) || c) || d`). -/
def ensureOwnFilesKeeps (uri : FPath) : Bool :=
  (!(containsSub uri (pth "/node_modules/")) && isJSTSFile uri)
  || isConfigFile uri || isPackageJsonFile uri

/-- The filter as the claim states it: not under `node_modules`, and a
JS/TS source file, config file, or `package.json`.  Stated from the
spec's words for comparison with `ensureOwnFilesKeeps`. -/
def claimOwnFilesKeeps (uri : FPath) : Bool :=
  !(containsSub uri (pth "/node_modules/"))
  && (isJSTSFile uri || isConfigFile uri || isPackageJsonFile uri)

/-- C1: the claim says a config file or `package.json` under
`node_modules` is not fetched by `ensureOwnFiles`.  Because `&&` binds
tighter than `||` in the source filter, the node_modules exclusion only
guards the JS/TS-file disjunct: the code keeps (and therefore fetches)
`package.json` and `tsconfig.json` files under `node_modules`,
contradicting both the claim and the function's own doc comment
("Ensures all files not in node_modules were fetched"). -/
theorem C1_ensureOwnFiles_keeps_node_modules_configs :
    ensureOwnFilesKeeps (pth "file:///r/node_modules/a/package.json") = true
    ∧ ensureOwnFilesKeeps (pth "file:///r/node_modules/a/tsconfig.json") = true
    ∧ claimOwnFilesKeeps (pth "file:///r/node_modules/a/package.json") = false
    ∧ claimOwnFilesKeeps (pth "file:///r/node_modules/a/tsconfig.json") = false := by
  refine ⟨by decide, by decide, by decide, by decide⟩

/-!
## C2: the shared URI -> version map

`ProjectManager.didOpen` delegates to `didChange`; `didChange` and
`didClose` both run

  let version = this.versions.get(uri) || 0;
  this.versions.set(uri, ++version);

`InMemoryLanguageServiceHost.getScriptVersion` runs

  const uri = path2uri(filePath);
  let version = this.versions.get(uri);
  if (!version) { version = 1; this.versions.set(uri, version); }

on the same shared map.  `didSave` and `addFile`/`incProjectVersion` do
not touch the map.  We model the map as an association list and each
public operation's effect on it.
-/

/-- The shared `Map<URI, number>` of versions. -/
abbrev VersionMap := List (FPath × Nat)

/-- `Map.get`: first binding for the key, if any. -/
def vget (m : VersionMap) (k : FPath) : Option Nat :=
  match m with
  | [] => none
  | (k', v) :: t => if k' = k then some v else vget t k

/-- `Map.set`: replace the binding for the key, or append it. -/
def vset (m : VersionMap) (k : FPath) (v : Nat) : VersionMap :=
  match m with
  | [] => [(k, v)]
  | (k', v') :: t => if k' = k then (k, v) :: t else (k', v') :: vset t k v

/-- Reading a version, with an absent entry read as `0` (the `|| 0` in
the source). -/
def versionOf (m : VersionMap) (k : FPath) : Nat := (vget m k).getD 0

/-- The operations of the program that can see the shared version map:
the Change Intake operations of `ProjectManager` and the
`InMemoryLanguageServiceHost` methods that receive the map. -/
inductive VOp
  | didOpen (uri : FPath)
  | didChange (uri : FPath)
  | didClose (uri : FPath)
  | didSave (uri : FPath)
  | getScriptVersion (filePath : FPath)
  | incProjectVersion
  | addFile (filePath : FPath)

/-- The version bump shared by `didChange` and `didClose`: read the
version with `|| 0` (JavaScript: `undefined` and `0` are both falsy) and
store the successor. -/
def bumpVersion (m : VersionMap) (uri : FPath) : VersionMap :=
  let version := match vget m uri with
    | some v => if v = 0 then 0 else v
    | none => 0
  vset m uri (version + 1)

/-- The effect of each operation on the shared version map (see the
section comment above; `didOpen` calls `didChange`, so both bump). -/
def applyVOp (m : VersionMap) : VOp → VersionMap
  | .didOpen uri => bumpVersion m uri
  | .didChange uri => bumpVersion m uri
  | .didClose uri => bumpVersion m uri
  | .didSave _ => m
  | .getScriptVersion filePath =>
    let uri := path2uri filePath
    match vget m uri with
    | some v => if v = 0 then vset m uri 1 else m
    | none => vset m uri 1
  | .incProjectVersion => m
  | .addFile _ => m

/-- A sequence of operations applied in order. -/
def applyVOps (m : VersionMap) (ops : List VOp) : VersionMap :=
  ops.foldl applyVOp m

theorem vget_vset_self (m : VersionMap) (k : FPath) (v : Nat) :
    vget (vset m k v) k = some v := by
  induction m with
  | nil => simp [vget, vset]
  | cons h t ih =>
    obtain ⟨k', v'⟩ := h
    by_cases hk : k' = k <;> simp [vget, vset, hk, ih]

theorem vget_vset_ne (m : VersionMap) (k u : FPath) (v : Nat) (h : u ≠ k) :
    vget (vset m k v) u = vget m u := by
  induction m with
  | nil =>
    have hk : ¬ (k = u) := fun hh => h hh.symm
    simp [vget, vset, hk]
  | cons hd t ih =>
    obtain ⟨k', v'⟩ := hd
    by_cases hk : k' = k
    · subst hk
      have hku : ¬ (k' = u) := fun hh => h hh.symm
      simp [vget, vset, hku]
    · simp only [vset, if_neg hk, vget]
      by_cases hu : k' = u <;> simp [hu, ih]

theorem versionOf_bump (m : VersionMap) (k u : FPath) :
    versionOf (bumpVersion m k) u
      = if u = k then versionOf m u + 1 else versionOf m u := by
  unfold bumpVersion
  by_cases hu : u = k
  · subst hu
    simp only [if_pos rfl, versionOf, vget_vset_self]
    cases hv : vget m u with
    | none => simp [hv]
    | some v =>
      by_cases h0 : v = 0 <;> simp [hv, h0]
  · simp [versionOf, if_neg hu, vget_vset_ne m k u _ hu]

theorem versionOf_getScriptVersion (m : VersionMap) (fp u : FPath) :
    versionOf (applyVOp m (.getScriptVersion fp)) u
      = if u = path2uri fp ∧ versionOf m u = 0 then 1 else versionOf m u := by
  by_cases hu : u = path2uri fp
  · subst hu
    cases hv : vget m (path2uri fp) with
    | none => simp [applyVOp, versionOf, hv, vget_vset_self]
    | some v =>
      by_cases h0 : v = 0
      · subst h0
        simp [applyVOp, versionOf, hv, vget_vset_self]
      · simp [applyVOp, versionOf, hv, h0]
  · cases hv : vget m (path2uri fp) with
    | none => simp [applyVOp, versionOf, hu, hv, vget_vset_ne m _ u _ hu]
    | some v =>
      by_cases h0 : v = 0 <;>
        simp [applyVOp, versionOf, hu, hv, h0, vget_vset_ne m _ u _ hu]

theorem versionOf_mono_op (m : VersionMap) (op : VOp) (u : FPath) :
    versionOf m u ≤ versionOf (applyVOp m op) u := by
  cases op with
  | didOpen k => rw [show applyVOp m (.didOpen k) = bumpVersion m k from rfl, versionOf_bump]; split <;> omega
  | didChange k => rw [show applyVOp m (.didChange k) = bumpVersion m k from rfl, versionOf_bump]; split <;> omega
  | didClose k => rw [show applyVOp m (.didClose k) = bumpVersion m k from rfl, versionOf_bump]; split <;> omega
  | didSave k => exact le_refl _
  | getScriptVersion fp =>
    rw [versionOf_getScriptVersion]
    split
    · next h => omega
    · exact le_refl _
  | incProjectVersion => exact le_refl _
  | addFile fp => exact le_refl _

theorem versionOf_mono_ops (m : VersionMap) (ops : List VOp) (u : FPath) :
    versionOf m u ≤ versionOf (applyVOps m ops) u := by
  induction ops generalizing m with
  | nil => exact le_refl _
  | cons op t ih =>
    exact le_trans (versionOf_mono_op m op u) (ih (applyVOp m op))

/-- C2 counterexample: the claim says no operation other than Change
Intake (didOpen/didChange/didClose) mutates the shared version map, but
`InMemoryLanguageServiceHost.getScriptVersion` (source lines 635-643)
writes a seed version `1` for an absent entry: on an empty map it is not
the identity. -/
theorem C2_getScriptVersion_mutates_counterexample :
    applyVOp ([] : VersionMap) (VOp.getScriptVersion (pth "/a.ts"))
        = [(pth "file:///a.ts", 1)]
    ∧ applyVOp ([] : VersionMap) (VOp.getScriptVersion (pth "/a.ts"))
        ≠ ([] : VersionMap) := by
  refine ⟨by decide, by decide⟩

/-- C2 as amended: over any sequence of operations the version of every
URI never decreases; each `didOpen`/`didChange`/`didClose` increments
the touched URI's version by exactly one (reading an absent entry as 0)
and leaves other URIs alone; `didSave`, `addFile` and
`incProjectVersion` never mutate the map; and the only other mutator is
`getScriptVersion`, which seeds an absent-or-zero entry to `1` and
otherwise changes nothing. -/
theorem C2_version_map_monotone_and_increments :
    (∀ (m : VersionMap) (ops : List VOp) (u : FPath),
        versionOf m u ≤ versionOf (applyVOps m ops) u)
    ∧ (∀ (m : VersionMap) (k u : FPath),
        versionOf (applyVOp m (.didOpen k)) u
          = (if u = k then versionOf m u + 1 else versionOf m u)
        ∧ versionOf (applyVOp m (.didChange k)) u
          = (if u = k then versionOf m u + 1 else versionOf m u)
        ∧ versionOf (applyVOp m (.didClose k)) u
          = (if u = k then versionOf m u + 1 else versionOf m u))
    ∧ (∀ (m : VersionMap) (k : FPath),
        applyVOp m (.didSave k) = m
        ∧ applyVOp m .incProjectVersion = m
        ∧ applyVOp m (.addFile k) = m)
    ∧ (∀ (m : VersionMap) (fp u : FPath),
        versionOf (applyVOp m (.getScriptVersion fp)) u
          = if u = path2uri fp ∧ versionOf m u = 0 then 1
            else versionOf m u) := by
  refine ⟨versionOf_mono_ops, ?_, ?_, versionOf_getScriptVersion⟩
  · intro m k u
    exact ⟨versionOf_bump m k u, versionOf_bump m k u, versionOf_bump m k u⟩
  · intro m k
    exact ⟨rfl, rfl, rfl⟩

/-!
## Directory truncation and the project router (C5, C6)

Several places in the source compute a parent directory with

  const pos = dir.lastIndexOf('/');
  if (pos <= 0) { dir = ''; } else { dir = dir.substring(0, pos); }

(`ProjectManager` constructor, `getConfigurationIfExists`,
`ProjectConfiguration.init`).  We model it with `truncateDir`: the
characters strictly before the last slash, or the empty path when there
is no slash or the only slash is the leading one.
-/

/-- The characters strictly before the last `'/'` of the list, when the
list contains a slash. -/
def beforeLastSlash : FPath → Option FPath
  | [] => none
  | c :: cs =>
    match beforeLastSlash cs with
    | some p => some (c :: p)
    | none => if c = '/' then some [] else none

/-- `dir.substring(0, dir.lastIndexOf('/'))` with the `pos <= 0` guard
mapping to the empty path (see the section comment). -/
def truncateDir (p : FPath) : FPath := (beforeLastSlash p).getD []

theorem beforeLastSlash_length {p q : FPath} (h : beforeLastSlash p = some q) :
    q.length < p.length := by
  induction p generalizing q with
  | nil => simp [beforeLastSlash] at h
  | cons c cs ih =>
    simp only [beforeLastSlash] at h
    cases hcs : beforeLastSlash cs with
    | some r =>
      rw [hcs] at h
      cases h
      simpa using Nat.succ_lt_succ (ih hcs)
    | none =>
      rw [hcs] at h
      by_cases hc : c = '/'
      · simp [hc] at h
        cases h
        simp
      · simp [hc] at h

theorem truncateDir_length {p : FPath} (h : p ≠ []) :
    (truncateDir p).length < p.length := by
  unfold truncateDir
  cases hb : beforeLastSlash p with
  | some q => simpa using beforeLastSlash_length hb
  | none =>
    simp only [Option.getD]
    cases p with
    | nil => exact absurd rfl h
    | cons c cs => simp

/-- `rootPath.replace(/\/+$/, '')`: the root path with trailing slashes
removed. -/
def trimTrailingSlashes (p : FPath) : FPath :=
  (p.reverse.dropWhile (fun c => c = '/')).reverse

/-- `path.posix.basename`, as used by `getConfigurationType`: the part
after the last slash (for the paths at hand, which have no trailing
slash). -/
def basenameP (p : FPath) : FPath :=
  (p.reverse.takeWhile (fun c => c ≠ '/')).reverse

/-- `path.posix.extname`: the suffix of the basename from its last dot,
provided the dot is not the basename's first character. -/
def extnameP (p : FPath) : FPath :=
  let b := basenameP p
  let e := (b.reverse.takeWhile (fun c => c ≠ '.')).reverse
  if e.length + 1 < b.length then '.' :: e
  else if e.length + 1 = b.length ∧ b.head? ≠ some '.' then '.' :: e
  else []

/-- `ts` or `js`, the two configuration kinds. -/
inductive ConfigType | js | ts
deriving DecidableEq, Repr

/-- `ProjectManager.getConfigurationType` (source lines 524-536). -/
def getConfigurationType (filePath : FPath) : ConfigType :=
  let name := basenameP filePath
  if name = pth "tsconfig.json" then .ts
  else if name = pth "jsconfig.json" then .js
  else
    let extension := extnameP filePath
    if extension = pth ".js" ∨ extension = pth ".jsx" then .js
    else .ts

/-- A `(directory, session)` map of one ConfigKind.  Sessions are
identified by numeric identities (mirroring JavaScript object identity,
which the source compares with `===`). -/
abbrev ConfigsMap := List (FPath × Nat)

/-- `Map.get` for a configs map. -/
def cget (m : ConfigsMap) (k : FPath) : Option Nat :=
  match m with
  | [] => none
  | (k', v) :: t => if k' = k then some v else cget t k

/-- `Map.set` for a configs map. -/
def cset (m : ConfigsMap) (k : FPath) (v : Nat) : ConfigsMap :=
  match m with
  | [] => [(k, v)]
  | (k', v') :: t => if k' = k then (k, v) :: t else (k', v') :: cset t k v

/-- `Map.delete` for a configs map. -/
def cdel (m : ConfigsMap) (k : FPath) : ConfigsMap :=
  match m with
  | [] => []
  | (k', v') :: t => if k' = k then t else (k', v') :: cdel t k

/-- The `while (dir && dir !== rootPath)` loop of
`ProjectManager.getConfigurationIfExists` (source lines 424-445): test
the map at `dir`, truncate at the last slash, and fall back to the map's
entry at the trimmed root once the loop exits. -/
def configWalk (configs : ConfigsMap) (rootPath : FPath) (dir : FPath) : Option Nat :=
  if dir = [] ∨ dir = rootPath then cget configs rootPath
  else
    match cget configs dir with
    | some config => some config
    | none => configWalk configs rootPath (truncateDir dir)
termination_by dir.length
decreasing_by exact truncateDir_length (by simp_all)

/-- `ProjectManager.getConfigurationIfExists`, for the map of the
already-selected ConfigKind (the kind dispatch is
`getConfigurationType`).  `rootPath` is the untrimmed workspace root. -/
def getConfigurationIfExists (configs : ConfigsMap) (rootPath : FPath)
    (filePath : FPath) : Option Nat :=
  configWalk configs (trimTrailingSlashes rootPath) (toUnixPath filePath)

/-- The chain of directories the walk visits before reaching the root:
the directory itself and its successive truncations, stopping before the
empty path or the trimmed root. -/
def dirChain (rootPath : FPath) (dir : FPath) : List FPath :=
  if dir = [] ∨ dir = rootPath then []
  else dir :: dirChain rootPath (truncateDir dir)
termination_by dir.length
decreasing_by exact truncateDir_length (by simp_all)

theorem configWalk_eq_chain (configs : ConfigsMap) (rootPath dir : FPath) :
    configWalk configs rootPath dir
      = ((dirChain rootPath dir).findSome? (fun d => cget configs d)).orElse
          (fun _ => cget configs rootPath) := by
  induction dir using configWalk.induct configs rootPath with
  | case1 dir h => rw [configWalk, dirChain]; simp [h]
  | case2 dir h config hc =>
    rw [configWalk, dirChain]
    simp only [if_neg h]
    simp [List.findSome?, hc, Option.orElse]
  | case3 dir h hc ih =>
    rw [configWalk, dirChain]
    simp only [if_neg h]
    simp [List.findSome?, hc, ih]

theorem dirChain_length_le (rootPath : FPath) :
    ∀ dir d', d' ∈ dirChain rootPath dir → d'.length ≤ dir.length := by
  intro dir
  induction dir using dirChain.induct rootPath with
  | case1 dir h => rw [dirChain]; simp [h]
  | case2 dir h ih =>
    intro d' hd'
    rw [dirChain, if_neg h] at hd'
    rcases List.mem_cons.mp hd' with rfl | hmem
    · exact le_refl _
    · have hne : dir ≠ [] := by
        intro hnil
        exact h (Or.inl hnil)
      exact le_trans (ih d' hmem) (le_of_lt (truncateDir_length hne))

theorem findSome_chain_longest (configs : ConfigsMap) (rootPath : FPath) :
    ∀ dir c,
      (dirChain rootPath dir).findSome? (fun d => cget configs d) = some c →
      ∃ d, d ∈ dirChain rootPath dir ∧ cget configs d = some c ∧
        ∀ d', d' ∈ dirChain rootPath dir → (cget configs d').isSome →
          d'.length ≤ d.length := by
  intro dir
  induction dir using dirChain.induct rootPath with
  | case1 dir h => rw [dirChain]; simp [h]
  | case2 dir h ih =>
    intro c hfind
    rw [dirChain, if_neg h] at hfind ⊢
    rw [List.findSome?_cons] at hfind
    have hne : dir ≠ [] := fun hnil => h (Or.inl hnil)
    cases hdir : cget configs dir with
    | some c' =>
      rw [hdir] at hfind
      cases hfind
      refine ⟨dir, List.mem_cons_self _ _, hdir, ?_⟩
      intro d' hd' _
      rcases List.mem_cons.mp hd' with rfl | hmem
      · exact le_refl _
      · exact le_trans (dirChain_length_le rootPath _ d' hmem)
          (le_of_lt (truncateDir_length hne))
    | none =>
      rw [hdir] at hfind
      obtain ⟨d, hmem, hget, hmax⟩ := ih c hfind
      refine ⟨d, List.mem_cons_of_mem _ hmem, hget, ?_⟩
      intro d' hd' hsome
      rcases List.mem_cons.mp hd' with rfl | hmem'
      · rw [hdir] at hsome
        simp at hsome
      · exact hmax d' hmem' hsome

theorem configWalk_some (configs : ConfigsMap) (rootPath dir : FPath) (c : Nat)
    (h : configWalk configs rootPath dir = some c) :
    (∃ d, d ∈ dirChain rootPath dir ∧ cget configs d = some c ∧
        ∀ d', d' ∈ dirChain rootPath dir → (cget configs d').isSome →
          d'.length ≤ d.length)
    ∨ ((∀ d' ∈ dirChain rootPath dir, cget configs d' = none)
        ∧ cget configs rootPath = some c) := by
  rw [configWalk_eq_chain] at h
  cases hfind : (dirChain rootPath dir).findSome? (fun d => cget configs d) with
  | some c' =>
    rw [hfind] at h
    simp [Option.orElse] at h
    cases h
    exact Or.inl (findSome_chain_longest configs rootPath dir c hfind)
  | none =>
    rw [hfind] at h
    simp [Option.orElse] at h
    exact Or.inr ⟨fun d' hd' => List.findSome?_eq_none_iff.mp hfind d' hd', h⟩

theorem configWalk_none (configs : ConfigsMap) (rootPath dir : FPath)
    (h : configWalk configs rootPath dir = none) :
    (∀ d' ∈ dirChain rootPath dir, cget configs d' = none)
    ∧ cget configs rootPath = none := by
  rw [configWalk_eq_chain] at h
  cases hfind : (dirChain rootPath dir).findSome? (fun d => cget configs d) with
  | some c' => rw [hfind] at h; simp [Option.orElse] at h
  | none =>
    rw [hfind] at h
    simp [Option.orElse] at h
    exact ⟨fun d' hd' => List.findSome?_eq_none_iff.mp hfind d' hd', h⟩

/-- The two-config example used by the claim: sessions 10 at `/root`
(from `/root/tsconfig.json`) and 11 at `/root/pkg` (from
`/root/pkg/tsconfig.json`). -/
def exampleConfigs : ConfigsMap := [(pth "/root", 10), (pth "/root/pkg", 11)]

/-- C6: `getConfigurationIfExists` selects the unique owning session:
walking up from the file path, the first (hence longest) directory of
the kind's map that is a proper-or-equal ancestor of the file's
directory wins, with the entry at the trimmed root as the fallback when
no ancestor matches; in the two-config example the `/root/pkg` session
owns `/root/pkg/sub/x.ts`, not the root session.  The hypotheses state
that the file path itself is not a directory key of the map and is
neither empty nor the trimmed root (it is a file inside the workspace). -/
theorem C6_getConfiguration_longest_ancestor :
    (∀ (configs : ConfigsMap) (rootPath filePath : FPath),
      cget configs (toUnixPath filePath) = none →
      toUnixPath filePath ≠ [] →
      toUnixPath filePath ≠ trimTrailingSlashes rootPath →
      (∀ c, getConfigurationIfExists configs rootPath filePath = some c →
        (∃ d, d ∈ dirChain (trimTrailingSlashes rootPath)
                (truncateDir (toUnixPath filePath))
            ∧ cget configs d = some c
            ∧ ∀ d', d' ∈ dirChain (trimTrailingSlashes rootPath)
                      (truncateDir (toUnixPath filePath)) →
                (cget configs d').isSome → d'.length ≤ d.length)
        ∨ ((∀ d' ∈ dirChain (trimTrailingSlashes rootPath)
                (truncateDir (toUnixPath filePath)),
              cget configs d' = none)
            ∧ cget configs (trimTrailingSlashes rootPath) = some c))
      ∧ (getConfigurationIfExists configs rootPath filePath = none →
          (∀ d' ∈ dirChain (trimTrailingSlashes rootPath)
              (truncateDir (toUnixPath filePath)),
            cget configs d' = none)
          ∧ cget configs (trimTrailingSlashes rootPath) = none))
    ∧ getConfigurationIfExists exampleConfigs (pth "/root")
        (pth "/root/pkg/sub/x.ts") = some 11 := by
  constructor
  · intro configs rootPath filePath hfp hne hnr
    have hstep : getConfigurationIfExists configs rootPath filePath
        = configWalk configs (trimTrailingSlashes rootPath)
            (truncateDir (toUnixPath filePath)) := by
      rw [getConfigurationIfExists, configWalk]
      rw [if_neg (by simp [hne, hnr]), hfp]
    constructor
    · intro c hc
      rw [hstep] at hc
      exact configWalk_some _ _ _ _ hc
    · intro hc
      rw [hstep] at hc
      exact configWalk_none _ _ _ hc
  · simp [getConfigurationIfExists, exampleConfigs, configWalk, cget,
      truncateDir, beforeLastSlash, trimTrailingSlashes, toUnixPath, pth]

/-- Witness for C6: the hypotheses hold at the example input, and the
theorem applied there yields the longest-ancestor characterization of
the selected owner. -/
theorem C6_getConfiguration_longest_ancestor_witness :
    (cget exampleConfigs (toUnixPath (pth "/root/pkg/sub/x.ts")) = none
      ∧ toUnixPath (pth "/root/pkg/sub/x.ts") ≠ []
      ∧ toUnixPath (pth "/root/pkg/sub/x.ts")
          ≠ trimTrailingSlashes (pth "/root"))
    ∧ (∀ c, getConfigurationIfExists exampleConfigs (pth "/root")
          (pth "/root/pkg/sub/x.ts") = some c →
        (∃ d, d ∈ dirChain (trimTrailingSlashes (pth "/root"))
                (truncateDir (toUnixPath (pth "/root/pkg/sub/x.ts")))
            ∧ cget exampleConfigs d = some c
            ∧ ∀ d', d' ∈ dirChain (trimTrailingSlashes (pth "/root"))
                      (truncateDir (toUnixPath (pth "/root/pkg/sub/x.ts"))) →
                (cget exampleConfigs d').isSome → d'.length ≤ d.length)
        ∨ ((∀ d' ∈ dirChain (trimTrailingSlashes (pth "/root"))
                (truncateDir (toUnixPath (pth "/root/pkg/sub/x.ts"))),
              cget exampleConfigs d' = none)
            ∧ cget exampleConfigs (trimTrailingSlashes (pth "/root"))
                = some c)) :=
  ⟨⟨by decide, by decide, by decide⟩,
    (C6_getConfiguration_longest_ancestor.1 exampleConfigs (pth "/root")
      (pth "/root/pkg/sub/x.ts") (by decide) (by decide) (by decide)).1⟩

/-!
## C5: session creation on VFS `add` events

`ProjectManager`'s constructor (source lines 148-177) subscribes to the
VFS `add` event with the filter

  !!content && /\/[tj]sconfig\.json/.test(uri) && !uri.includes('/node_modules/')

and, for each passing event, computes the config file's parent directory,
inserts a fresh `ProjectConfiguration` there in the map of the file's
ConfigKind, and deletes the entry at the trimmed root when (and only
when) that entry still is the fallback created at construction.  We give
sessions numeric identities to mirror JavaScript object identity: the
two fallbacks are sessions `0` (js) and `1` (ts), and `nextId` is the
identity the next created session will get.
-/

/-- The `(dir -> session)` maps of both kinds plus the fresh-identity
counter. -/
structure RouterState where
  jsConfigs : ConfigsMap
  tsConfigs : ConfigsMap
  nextId : Nat
deriving DecidableEq, Repr

/-- The map of one ConfigKind. -/
def kindMap (st : RouterState) : ConfigType → ConfigsMap
  | .js => st.jsConfigs
  | .ts => st.tsConfigs

/-- Replace the map of one ConfigKind. -/
def setKindMap (st : RouterState) : ConfigType → ConfigsMap → RouterState
  | .js, m => { st with jsConfigs := m }
  | .ts, m => { st with tsConfigs := m }

/-- The other ConfigKind. -/
def otherKind : ConfigType → ConfigType
  | .js => .ts
  | .ts => .js

/-- The identity of the fallback session of a kind, as installed by the
constructor (the loop creates the js fallback first, then the ts one). -/
def fallbackId : ConfigType → Nat
  | .js => 0
  | .ts => 1

/-- The state set up by the `ProjectManager` constructor: one fallback
session per kind, keyed at the trimmed root. -/
def initialRouter (rootPath : FPath) : RouterState :=
  let trimmedRootPath := trimTrailingSlashes rootPath
  { jsConfigs := [(trimmedRootPath, fallbackId .js)]
    tsConfigs := [(trimmedRootPath, fallbackId .ts)]
    nextId := 2 }

/-- The filter on `add` events: non-empty content, the unanchored
`[tj]sconfig.json` pattern on the URI, and not under `node_modules`. -/
def addCond (uri content : FPath) : Bool :=
  !content.isEmpty
  && (containsSub uri (pth "/tsconfig.json")
      || containsSub uri (pth "/jsconfig.json"))
  && !containsSub uri (pth "/node_modules/")

/-- The parent directory of the config file named by the `add` URI (the
`lastIndexOf('/')` truncation of the handler, source lines 153-159). -/
def addDir (uri : FPath) : FPath := truncateDir (toUnixPath (uri2path uri))

/-- The map update the subscription body performs on the matching
kind's map: insert the fresh session at the parent directory, then
remove the trimmed-root entry when it still is the fallback of that
kind (the `===` comparison against `fallbackConfigs[configType]`). -/
def updatedConfigs (rootPath : FPath) (st : RouterState) (uri : FPath) :
    ConfigsMap :=
  let configType := getConfigurationType (uri2path uri)
  let trimmedRootPath := trimTrailingSlashes rootPath
  let configs1 := cset (kindMap st configType) (addDir uri) st.nextId
  if cget configs1 trimmedRootPath = some (fallbackId configType) then
    cdel configs1 trimmedRootPath
  else configs1

/-- The subscription body run for one VFS `add` event (source lines
148-177): under `addCond`, create a session at the config file's parent
directory and remove the trimmed-root entry if it still is the fallback
of that kind.  Session creation draws the fresh identity `st.nextId`. -/
def onAdd (rootPath : FPath) (st : RouterState) (uri content : FPath) :
    RouterState :=
  if addCond uri content then
    { setKindMap st (getConfigurationType (uri2path uri))
        (updatedConfigs rootPath st uri) with nextId := st.nextId + 1 }
  else st

/-- Well-formedness of a router state: the counter is past both fallback
identities, every stored session identity is below the counter, and each
map binds a directory at most once (JavaScript `Map` semantics). -/
def routerWF (st : RouterState) : Prop :=
  2 ≤ st.nextId
  ∧ (∀ p ∈ st.jsConfigs, p.2 < st.nextId)
  ∧ (∀ p ∈ st.tsConfigs, p.2 < st.nextId)
  ∧ (st.jsConfigs.map Prod.fst).Nodup
  ∧ (st.tsConfigs.map Prod.fst).Nodup

instance (st : RouterState) : Decidable (routerWF st) := by
  unfold routerWF; infer_instance

theorem cget_cset_self (m : ConfigsMap) (k : FPath) (v : Nat) :
    cget (cset m k v) k = some v := by
  induction m with
  | nil => simp [cget, cset]
  | cons h t ih =>
    obtain ⟨k', v'⟩ := h
    by_cases hk : k' = k <;> simp [cget, cset, hk, ih]

theorem cget_cset_ne (m : ConfigsMap) (k u : FPath) (v : Nat) (h : u ≠ k) :
    cget (cset m k v) u = cget m u := by
  induction m with
  | nil =>
    have hk : ¬ (k = u) := fun hh => h hh.symm
    simp [cget, cset, hk]
  | cons hd t ih =>
    obtain ⟨k', v'⟩ := hd
    by_cases hk : k' = k
    · subst hk
      have hku : ¬ (k' = u) := fun hh => h hh.symm
      simp [cget, cset, hku]
    · simp only [cset, if_neg hk, cget]
      by_cases hu : k' = u <;> simp [hu, ih]

theorem cget_eq_none_of_not_mem_keys (m : ConfigsMap) (k : FPath)
    (h : k ∉ m.map Prod.fst) : cget m k = none := by
  induction m with
  | nil => rfl
  | cons hd t ih =>
    obtain ⟨k', v'⟩ := hd
    simp only [List.map_cons, List.mem_cons] at h
    push_neg at h
    have hk : ¬ (k' = k) := fun hh => h.1 hh.symm
    simp only [cget, if_neg hk]
    exact ih h.2

theorem cget_cdel_self (m : ConfigsMap) (k : FPath)
    (h : (m.map Prod.fst).Nodup) : cget (cdel m k) k = none := by
  induction m with
  | nil => rfl
  | cons hd t ih =>
    obtain ⟨k', v'⟩ := hd
    simp only [List.map_cons, List.nodup_cons] at h
    by_cases hk : k' = k
    · subst hk
      simp only [cdel, if_pos rfl]
      exact cget_eq_none_of_not_mem_keys t k' h.1
    · simp only [cdel, if_neg hk, cget, if_neg hk]
      exact ih h.2

theorem cget_cdel_ne (m : ConfigsMap) (k u : FPath) (h : u ≠ k) :
    cget (cdel m k) u = cget m u := by
  induction m with
  | nil => rfl
  | cons hd t ih =>
    obtain ⟨k', v'⟩ := hd
    by_cases hk : k' = k
    · subst hk
      have hku : ¬ (k' = u) := fun hh => h hh.symm
      simp [cdel, cget, hku]
    · simp only [cdel, if_neg hk, cget]
      by_cases hu : k' = u <;> simp [hu, ih]

theorem mem_cset (m : ConfigsMap) (k : FPath) (v : Nat) (p : FPath × Nat)
    (h : p ∈ cset m k v) : p ∈ m ∨ p = (k, v) := by
  induction m with
  | nil => simp [cset] at h; simp [h]
  | cons hd t ih =>
    obtain ⟨k', v'⟩ := hd
    by_cases hk : k' = k
    · simp only [cset, if_pos hk] at h
      rcases List.mem_cons.mp h with rfl | hmem
      · exact Or.inr rfl
      · exact Or.inl (List.mem_cons_of_mem _ hmem)
    · simp only [cset, if_neg hk] at h
      rcases List.mem_cons.mp h with rfl | hmem
      · exact Or.inl (List.mem_cons_self _ _)
      · rcases ih hmem with hm | he
        · exact Or.inl (List.mem_cons_of_mem _ hm)
        · exact Or.inr he

theorem mem_cdel (m : ConfigsMap) (k : FPath) (p : FPath × Nat)
    (h : p ∈ cdel m k) : p ∈ m := by
  induction m with
  | nil => simp [cdel] at h
  | cons hd t ih =>
    obtain ⟨k', v'⟩ := hd
    by_cases hk : k' = k
    · simp only [cdel, if_pos hk] at h
      exact List.mem_cons_of_mem _ h
    · simp only [cdel, if_neg hk] at h
      rcases List.mem_cons.mp h with rfl | hmem
      · exact List.mem_cons_self _ _
      · exact List.mem_cons_of_mem _ (ih hmem)

theorem keys_cset_nodup (m : ConfigsMap) (k : FPath) (v : Nat)
    (h : (m.map Prod.fst).Nodup) : ((cset m k v).map Prod.fst).Nodup := by
  induction m with
  | nil => simp [cset]
  | cons hd t ih =>
    obtain ⟨k', v'⟩ := hd
    simp only [List.map_cons, List.nodup_cons] at h
    by_cases hk : k' = k
    · subst hk
      have hset : cset ((k', v') :: t) k' v = (k', v) :: t := by simp [cset]
      rw [hset]
      simpa using h
    · simp only [cset, if_neg hk, List.map_cons, List.nodup_cons]
      refine ⟨?_, ih h.2⟩
      intro hmem
      have : k' ∈ t.map Prod.fst ∨ k' = k := by
        rcases List.mem_map.mp hmem with ⟨p, hp, hfst⟩
        rcases mem_cset t k v p hp with hm | he
        · exact Or.inl (List.mem_map.mpr ⟨p, hm, hfst⟩)
        · subst he; exact Or.inr hfst.symm
      rcases this with hm | he
      · exact h.1 hm
      · exact hk he

theorem keys_cdel_nodup (m : ConfigsMap) (k : FPath)
    (h : (m.map Prod.fst).Nodup) : ((cdel m k).map Prod.fst).Nodup := by
  induction m with
  | nil => simp [cdel]
  | cons hd t ih =>
    obtain ⟨k', v'⟩ := hd
    simp only [List.map_cons, List.nodup_cons] at h
    by_cases hk : k' = k
    · simp only [cdel, if_pos hk]
      exact h.2
    · simp only [cdel, if_neg hk, List.map_cons, List.nodup_cons]
      refine ⟨?_, ih h.2⟩
      intro hmem
      rcases List.mem_map.mp hmem with ⟨p, hp, hfst⟩
      exact h.1 (List.mem_map.mpr ⟨p, mem_cdel t k p hp, hfst⟩)

theorem routerWF_iff (st : RouterState) :
    routerWF st ↔ 2 ≤ st.nextId
      ∧ (∀ k, ∀ p ∈ kindMap st k, p.2 < st.nextId)
      ∧ (∀ k, ((kindMap st k).map Prod.fst).Nodup) := by
  unfold routerWF
  constructor
  · rintro ⟨h1, h2, h3, h4, h5⟩
    refine ⟨h1, ?_, ?_⟩
    · intro k
      cases k
      · exact h2
      · exact h3
    · intro k
      cases k
      · exact h4
      · exact h5
  · rintro ⟨h1, h2, h3⟩
    exact ⟨h1, h2 .js, h2 .ts, h3 .js, h3 .ts⟩

theorem kindMap_setKindMap_self (st : RouterState) (k : ConfigType)
    (m : ConfigsMap) : kindMap (setKindMap st k m) k = m := by
  cases k <;> rfl

theorem kindMap_setKindMap_other (st : RouterState) (k : ConfigType)
    (m : ConfigsMap) :
    kindMap (setKindMap st k m) (otherKind k) = kindMap st (otherKind k) := by
  cases k <;> rfl

theorem kindMap_withNextId (st : RouterState) (n : Nat) (k : ConfigType) :
    kindMap { st with nextId := n } k = kindMap st k := by
  cases k <;> rfl

theorem fallbackId_lt_two (k : ConfigType) : fallbackId k < 2 := by
  cases k <;> simp [fallbackId]

theorem cget_updatedConfigs_dir (rootPath : FPath) (st : RouterState)
    (uri : FPath) (hwf : routerWF st) :
    cget (updatedConfigs rootPath st uri) (addDir uri) = some st.nextId := by
  have h2 := ((routerWF_iff st).mp hwf).1
  simp only [updatedConfigs]
  have hself := cget_cset_self
    (kindMap st (getConfigurationType (uri2path uri))) (addDir uri) st.nextId
  split
  · next hfb =>
    have hne : addDir uri ≠ trimTrailingSlashes rootPath := by
      intro he
      rw [← he, hself] at hfb
      have heq := Option.some.inj hfb
      have := fallbackId_lt_two (getConfigurationType (uri2path uri))
      omega
    rw [cget_cdel_ne _ _ _ hne]
    exact hself
  · exact hself

theorem cget_updatedConfigs_root (rootPath : FPath) (st : RouterState)
    (uri : FPath) (hwf : routerWF st) :
    cget (updatedConfigs rootPath st uri) (trimTrailingSlashes rootPath)
      ≠ some (fallbackId (getConfigurationType (uri2path uri))) := by
  obtain ⟨-, -, hkeys⟩ := (routerWF_iff st).mp hwf
  simp only [updatedConfigs]
  split
  · next hfb =>
    rw [cget_cdel_self _ _
      (keys_cset_nodup _ _ _ (hkeys (getConfigurationType (uri2path uri))))]
    simp
  · next hfb => exact hfb

theorem mem_updatedConfigs (rootPath : FPath) (st : RouterState)
    (uri : FPath) (p : FPath × Nat)
    (h : p ∈ updatedConfigs rootPath st uri) :
    p ∈ kindMap st (getConfigurationType (uri2path uri))
    ∨ p = (addDir uri, st.nextId) := by
  simp only [updatedConfigs] at h
  split at h
  · exact mem_cset _ _ _ _ (mem_cdel _ _ _ h)
  · exact mem_cset _ _ _ _ h

theorem keys_updatedConfigs_nodup (rootPath : FPath) (st : RouterState)
    (uri : FPath) (hwf : routerWF st) :
    ((updatedConfigs rootPath st uri).map Prod.fst).Nodup := by
  obtain ⟨-, -, hkeys⟩ := (routerWF_iff st).mp hwf
  simp only [updatedConfigs]
  split
  · exact keys_cdel_nodup _ _
      (keys_cset_nodup _ _ _ (hkeys (getConfigurationType (uri2path uri))))
  · exact keys_cset_nodup _ _ _ (hkeys (getConfigurationType (uri2path uri)))

theorem kindMap_setKindMap_cases (st : RouterState) (k : ConfigType)
    (m : ConfigsMap) (k' : ConfigType) :
    kindMap (setKindMap st k m) k' = if k' = k then m else kindMap st k' := by
  cases k <;> cases k' <;> simp [kindMap, setKindMap]

/-- C5: a VFS `add` event creates a session and unseats the fallback
exactly under the filter: non-empty content, the `[tj]sconfig.json`
pattern, not under `node_modules`.  When the filter rejects (for
example a `tsconfig.json` under `node_modules`), the router state is
completely unchanged: no session created, no fallback eviction.  When it
accepts, the matching kind's map afterwards binds the config file's
parent directory to a brand-new session (identity `st.nextId`, which by
well-formedness is no existing session), the trimmed root no longer
holds the fallback of that kind, the other kind's map is untouched, and
well-formedness is preserved.  The first conjunct grounds the
well-formedness hypothesis at the constructor's initial state. -/
theorem C5_onAdd_creates_session_iff_filter :
    (∀ rootPath : FPath, routerWF (initialRouter rootPath))
    ∧ (∀ (rootPath : FPath) (st : RouterState) (uri content : FPath),
        routerWF st →
        (addCond uri content = false → onAdd rootPath st uri content = st)
        ∧ (addCond uri content = true →
            routerWF (onAdd rootPath st uri content)
            ∧ cget (kindMap (onAdd rootPath st uri content)
                  (getConfigurationType (uri2path uri))) (addDir uri)
                = some st.nextId
            ∧ (∀ p ∈ kindMap st (getConfigurationType (uri2path uri)),
                p.2 ≠ st.nextId)
            ∧ cget (kindMap (onAdd rootPath st uri content)
                  (getConfigurationType (uri2path uri)))
                (trimTrailingSlashes rootPath)
                ≠ some (fallbackId (getConfigurationType (uri2path uri)))
            ∧ kindMap (onAdd rootPath st uri content)
                (otherKind (getConfigurationType (uri2path uri)))
              = kindMap st (otherKind (getConfigurationType (uri2path uri))))) := by
  constructor
  · intro rootPath
    simp [initialRouter, routerWF, fallbackId]
  · intro rootPath st uri content hwf
    obtain ⟨hcnt, hvals, hkeys⟩ := (routerWF_iff st).mp hwf
    constructor
    · intro hneg
      simp [onAdd, hneg]
    · intro hpos
      have honAdd : onAdd rootPath st uri content
          = { setKindMap st (getConfigurationType (uri2path uri))
                (updatedConfigs rootPath st uri) with
              nextId := st.nextId + 1 } := by
        simp [onAdd, hpos]
      have hkind : kindMap (onAdd rootPath st uri content)
            (getConfigurationType (uri2path uri))
          = updatedConfigs rootPath st uri := by
        rw [honAdd, kindMap_withNextId, kindMap_setKindMap_self]
      have hnext : (onAdd rootPath st uri content).nextId = st.nextId + 1 := by
        rw [honAdd]
      refine ⟨?_, ?_, ?_, ?_, ?_⟩
      · rw [routerWF_iff]
        refine ⟨?_, ?_, ?_⟩
        · rw [hnext]
          omega
        · intro k' p hp
          rw [honAdd, kindMap_withNextId, kindMap_setKindMap_cases] at hp
          by_cases hkk : k' = getConfigurationType (uri2path uri)
          · rw [if_pos hkk] at hp
            rcases mem_updatedConfigs rootPath st uri p hp with hm | he
            · have := hvals _ p hm
              rw [hnext]
              omega
            · rw [hnext, he]
              exact Nat.lt_succ_self _
          · rw [if_neg hkk] at hp
            have := hvals k' p hp
            rw [hnext]
            omega
        · intro k'
          rw [honAdd, kindMap_withNextId, kindMap_setKindMap_cases]
          by_cases hkk : k' = getConfigurationType (uri2path uri)
          · rw [if_pos hkk]
            exact keys_updatedConfigs_nodup rootPath st uri hwf
          · rw [if_neg hkk]
            exact hkeys k'
      · rw [hkind]
        exact cget_updatedConfigs_dir rootPath st uri hwf
      · intro p hp
        have := hvals _ p hp
        omega
      · rw [hkind]
        exact cget_updatedConfigs_root rootPath st uri hwf
      · have hne : otherKind (getConfigurationType (uri2path uri))
            ≠ getConfigurationType (uri2path uri) := by
          cases getConfigurationType (uri2path uri) <;> simp [otherKind]
        rw [honAdd, kindMap_withNextId, kindMap_setKindMap_cases, if_neg hne]

/-- Witness for C5: concrete instantiation at the initial router for
root `/root` and an `add` of `file:///root/pkg/tsconfig.json` with
non-empty content: the filter accepts, the new session lands at
`/root/pkg` in the ts map, and the ts fallback is no longer at the
trimmed root. -/
theorem C5_onAdd_creates_session_iff_filter_witness :
    routerWF (initialRouter (pth "/root"))
    ∧ addCond (pth "file:///root/pkg/tsconfig.json") (pth "x") = true
    ∧ cget (kindMap (onAdd (pth "/root") (initialRouter (pth "/root"))
          (pth "file:///root/pkg/tsconfig.json") (pth "x"))
        (getConfigurationType (uri2path (pth "file:///root/pkg/tsconfig.json"))))
        (addDir (pth "file:///root/pkg/tsconfig.json"))
      = some (initialRouter (pth "/root")).nextId
    ∧ cget (kindMap (onAdd (pth "/root") (initialRouter (pth "/root"))
          (pth "file:///root/pkg/tsconfig.json") (pth "x"))
        (getConfigurationType (uri2path (pth "file:///root/pkg/tsconfig.json"))))
        (trimTrailingSlashes (pth "/root"))
      ≠ some (fallbackId (getConfigurationType
          (uri2path (pth "file:///root/pkg/tsconfig.json")))) := by
  have h := (C5_onAdd_creates_session_iff_filter.2 (pth "/root")
      (initialRouter (pth "/root")) (pth "file:///root/pkg/tsconfig.json")
      (pth "x") (by decide)).2 (by decide)
  exact ⟨by decide, by decide, h.2.1, h.2.2.2.1⟩

/-!
## ProjectConfiguration sessions (C3, C4, C10)

The analyzer (the external TypeScript compiler services) is modelled by
the small interface the source uses: a program is queried only through
`getSourceFile(fileName)` truthiness, a language service only through
`getProgram()`, and session initialization calls two config parsers and
the language-service factory.  `InMemoryLanguageServiceHost` carries the
staged file list, the `complete` flag and the project version (its view
of the shared version map is covered by C2 above).
-/

/-- The analyzer's program, queried via `getSourceFile` truthiness. -/
structure TsProgram where
  sourceFiles : List FPath
deriving DecidableEq, Repr

/-- The analyzer's language service: `getProgram()` may decline. -/
structure TsService where
  program : Option TsProgram
deriving DecidableEq, Repr

/-- The compiler options fields the source reads or writes. -/
structure CompilerOptions where
  allowJs : Bool
  traceResolution : Bool
deriving DecidableEq, Repr

/-- `InMemoryLanguageServiceHost` state (minus the shared maps): the
staged `filePaths`, the project version, and the `complete` flag. -/
structure TsHost where
  complete : Bool
  filePaths : List FPath
  projectVersion : Nat
deriving DecidableEq, Repr

/-- `InMemoryLanguageServiceHost.addFile`: push the path and increment
the project version (source lines 627-630). -/
def hostAddFile (h : TsHost) (filePath : FPath) : TsHost :=
  { h with filePaths := h.filePaths ++ [filePath]
           projectVersion := h.projectVersion + 1 }

/-- The result of the analyzer's `parseJsonConfigFileContent`. -/
structure ConfigParseResult where
  fileNames : List FPath
  options : CompilerOptions

/-- The external analyzer entry points `ProjectConfiguration.init`
calls.  `parseConfigFileTextToJson` may report a parse error (the
`jsonConfig.error` branch); `createLanguageService` yields the service
(whose `getProgram()` the analyzer controls). -/
structure Analyzer where
  parseConfigFileTextToJson : FPath → FPath → Except (List Char) FPath
  parseJsonConfigFileContent : FPath → FPath → ConfigParseResult
  createLanguageService : CompilerOptions → TsService

/-- `ProjectConfiguration` state: the session flags, the optional host
and service (absent until `init`), the config path and optional pre-baked
config content, and the expected file set. -/
structure ProjConfig where
  initialized : Bool
  ensuredBasicFiles : Bool
  ensuredAllFiles : Bool
  service : Option TsService
  host : Option TsHost
  configFilePath : FPath
  configContent : Option FPath
  expectedFilePaths : List FPath
  traceModuleResolution : Bool
deriving DecidableEq, Repr

/-- `ProjectConfiguration.getService` (source lines 781-786): raises
`project is uninitialized` when there is no service. -/
def getService (c : ProjConfig) : Except (List Char) TsService :=
  match c.service with
  | none => .error (pth "project is uninitialized")
  | some service => .ok service

/-- `ProjectConfiguration.getProgram` (source lines 795-797):
`this.getService().getProgram()`; the tracing wrapper is transparent. -/
def getProgram (c : ProjConfig) : Except (List Char) (Option TsProgram) :=
  match getService c with
  | .error e => .error e
  | .ok service => .ok service.program

/-- `ProjectConfiguration.getHost` (source lines 802-807). -/
def getHost (c : ProjConfig) : Except (List Char) TsHost :=
  match c.host with
  | none => .error (pth "project is uninitialized")
  | some host => .ok host

/-- The `/(^|\/)jsconfig\.json$/` test of `init`. -/
def isJsconfigPath (p : FPath) : Bool :=
  p = pth "jsconfig.json" || endsWithP p (pth "/jsconfig.json")

/-- `ProjectConfiguration.init` (source lines 814-856): parse the config
(or use the pre-baked object), compute the expected file set and
options, force `allowJs` for a `jsconfig.json`, force `traceResolution`
when module-resolution tracing is on, and create host and service.
`fsReadFile` models `this.fs.readFile` and `fsPath` models
`this.fs.path` (the in-memory file system is an external collaborator).
A no-op when already initialized. -/
def init (an : Analyzer) (fsReadFile : FPath → FPath) (fsPath : FPath)
    (c : ProjConfig) : Except (List Char) ProjConfig :=
  if c.initialized then .ok c
  else
    let parsed : Except (List Char) FPath :=
      match c.configContent with
      | none => an.parseConfigFileTextToJson c.configFilePath
          (fsReadFile c.configFilePath)
      | some configContent => .ok configContent
    match parsed with
    | .error e => .error (pth "Cannot parse " ++ c.configFilePath ++ pth ": " ++ e)
    | .ok configObject =>
      let dir := truncateDir (toUnixPath c.configFilePath)
      let base := if dir = [] then fsPath else dir
      let configParseResult := an.parseJsonConfigFileContent configObject base
      let options0 := configParseResult.options
      let options1 := if isJsconfigPath c.configFilePath then
          { options0 with allowJs := true } else options0
      let options := if c.traceModuleResolution then
          { options1 with traceResolution := true } else options1
      .ok { c with
        expectedFilePaths := configParseResult.fileNames
        host := some { complete := false, filePaths := [], projectVersion := 1 }
        service := some (an.createLanguageService options)
        initialized := true }

/-- `ProjectConfiguration.ensureConfigFile` (source lines 861-863). -/
def ensureConfigFile (an : Analyzer) (fsReadFile : FPath → FPath)
    (fsPath : FPath) (c : ProjConfig) : Except (List Char) ProjConfig :=
  init an fsReadFile fsPath c

/-- `ProjectConfiguration.ensureSourceFile` (source lines 901-910): ask
the program for the file and stage it via `host.addFile` when absent.
Note that, unlike `ensureBasicFiles`/`ensureAllFiles`, it does not call
`init` first. -/
def ensureSourceFile (c : ProjConfig) (filePath : FPath) :
    Except (List Char) ProjConfig :=
  match getProgram c with
  | .error e => .error e
  | .ok none => .ok c
  | .ok (some program) =>
    if filePath ∈ program.sourceFiles then .ok c
    else
      match getHost c with
      | .error e => .error e
      | .ok host => .ok { c with host := some (hostAddFile host filePath) }

/-- The staging loop of `ensureBasicFiles` (source lines 883-891): for
every VFS URI naming a global declaration file, or a declaration file in
the expected file set, stage it via `getHost().addFile` when the program
lacks it. -/
def basicStage (program : TsProgram) (c : ProjConfig) :
    List FPath → Except (List Char) ProjConfig
  | [] => .ok c
  | uri :: rest =>
    let fileName := uri2path uri
    if isGlobalTSFile fileName
        || (isDeclarationFile fileName
            && decide (toUnixPath fileName ∈ c.expectedFilePaths)) then
      if fileName ∈ program.sourceFiles then basicStage program c rest
      else
        match getHost c with
        | .error e => .error e
        | .ok host =>
          basicStage program { c with host := some (hostAddFile host fileName) } rest
    else basicStage program c rest

/-- `ProjectConfiguration.ensureBasicFiles` (source lines 870-893).
`fsUris` models `this.fs.uris()`. -/
def ensureBasicFiles (an : Analyzer) (fsReadFile : FPath → FPath)
    (fsPath : FPath) (fsUris : List FPath) (c : ProjConfig) :
    Except (List Char) ProjConfig :=
  if c.ensuredBasicFiles then .ok c
  else
    match init an fsReadFile fsPath c with
    | .error e => .error e
    | .ok c1 =>
      match getProgram c1 with
      | .error e => .error e
      | .ok none => .ok c1
      | .ok (some program) =>
        match basicStage program c1 fsUris with
        | .error e => .error e
        | .ok c2 => .ok { c2 with ensuredBasicFiles := true }

/-- The staging loop of `ensureAllFiles` (source lines 927-932): stage
every expected file the program lacks. -/
def allStage (program : TsProgram) (c : ProjConfig) :
    List FPath → Except (List Char) ProjConfig
  | [] => .ok c
  | fileName :: rest =>
    if fileName ∈ program.sourceFiles then allStage program c rest
    else
      match getHost c with
      | .error e => .error e
      | .ok host =>
        allStage program { c with host := some (hostAddFile host fileName) } rest

/-- `ProjectConfiguration.ensureAllFiles` (source lines 915-935). -/
def ensureAllFiles (an : Analyzer) (fsReadFile : FPath → FPath)
    (fsPath : FPath) (c : ProjConfig) : Except (List Char) ProjConfig :=
  if c.ensuredAllFiles then .ok c
  else
    match init an fsReadFile fsPath c with
    | .error e => .error e
    | .ok c1 =>
      match getHost c1 with
      | .error e => .error e
      | .ok host =>
        if host.complete then .ok c1
        else
          match getProgram c1 with
          | .error e => .error e
          | .ok none => .ok c1
          | .ok (some program) =>
            match allStage program c1 c1.expectedFilePaths with
            | .error e => .error e
            | .ok c2 =>
              match getHost c2 with
              | .error e => .error e
              | .ok host2 =>
                .ok { c2 with host := some { host2 with complete := true }
                              ensuredAllFiles := true }

/-- A session on which `ensureConfigFile` has never succeeded: no
service, no host, flags clear.  The pre-baked config content would let
`ensureConfigFile` succeed. -/
def pcUninit : ProjConfig :=
  { initialized := false, ensuredBasicFiles := false, ensuredAllFiles := false
    service := none, host := none
    configFilePath := pth "", configContent := some (pth "cfg")
    expectedFilePaths := [], traceModuleResolution := false }

/-- An analyzer whose parsers always succeed and whose language service
has an empty program. -/
def anTrivial : Analyzer :=
  { parseConfigFileTextToJson := fun _ text => .ok text
    parseJsonConfigFileContent := fun _ _ =>
      { fileNames := [], options := { allowJs := false, traceResolution := false } }
    createLanguageService := fun _ => { program := some { sourceFiles := [] } } }

/-- An empty file-system read function. -/
def fsEmptyRead : FPath → FPath := fun _ => []

/-- C3 counterexample: on an uninitialized session, `getProgram` does
not return absent — it raises `project is uninitialized`, because it
goes through `getService()`, which throws when there is no service. -/
theorem C3_getProgram_uninitialized_counterexample :
    getProgram pcUninit = .error (pth "project is uninitialized")
    ∧ getProgram pcUninit ≠ .ok none := by
  refine ⟨rfl, ?_⟩
  intro h
  simp [getProgram, getService, pcUninit] at h

/-- C3 as amended: on every session whose `ensureConfigFile` has never
succeeded (no service), `getProgram()` raises `project is
uninitialized`; once initialized it returns the analyzer's cached
program, absent when the analyzer declines. -/
theorem C3_getProgram_uninitialized_raises :
    ∀ c : ProjConfig,
      (c.service = none →
        getProgram c = .error (pth "project is uninitialized"))
      ∧ (∀ service, c.service = some service →
          getProgram c = .ok service.program) := by
  intro c
  constructor
  · intro h
    simp [getProgram, getService, h]
  · intro service h
    simp [getProgram, getService, h]

/-- Witness for C3: the amended theorem applied to the concrete
uninitialized session. -/
theorem C3_getProgram_uninitialized_raises_witness :
    pcUninit.service = none
    ∧ getProgram pcUninit = .error (pth "project is uninitialized") :=
  ⟨rfl, (C3_getProgram_uninitialized_raises pcUninit).1 rfl⟩

/-- C4 counterexample: `ensureSourceFile` does not call
`ensureConfigFile` first.  On the concrete uninitialized session whose
`ensureConfigFile` would succeed (pre-baked config content and a
trivially succeeding analyzer), `ensureSourceFile` nevertheless raises
`project is uninitialized` instead of succeeding. -/
theorem C4_ensureSourceFile_uninitialized_counterexample :
    (ensureConfigFile anTrivial fsEmptyRead (pth "/root") pcUninit).isOk = true
    ∧ ensureSourceFile pcUninit (pth "/root/x.ts")
        = .error (pth "project is uninitialized") := by
  refine ⟨rfl, rfl⟩

/-- C4 as amended: `ensureSourceFile` performs no initialization (on an
uninitialized session it raises, see the counterexample); on an
initialized session it stages the path via `host.addFile` exactly when
the analyzer yields a program that lacks the file, and leaves the
session unchanged when the analyzer declines or the program already has
the file. -/
theorem C4_ensureSourceFile_stages_iff_program_lacks :
    ∀ (c : ProjConfig) (service : TsService) (host : TsHost) (filePath : FPath),
      c.service = some service → c.host = some host →
      (service.program = none → ensureSourceFile c filePath = .ok c)
      ∧ (∀ program, service.program = some program →
          (filePath ∈ program.sourceFiles →
            ensureSourceFile c filePath = .ok c)
          ∧ (filePath ∉ program.sourceFiles →
            ensureSourceFile c filePath
              = .ok { c with host := some (hostAddFile host filePath) })) := by
  intro c service host filePath hsvc hhost
  constructor
  · intro hprog
    simp [ensureSourceFile, getProgram, getService, hsvc, hprog]
  · intro program hprog
    constructor
    · intro hmem
      simp [ensureSourceFile, getProgram, getService, hsvc, hprog, hmem]
    · intro hmem
      simp [ensureSourceFile, getProgram, getService, getHost, hsvc, hhost,
        hprog, hmem]

/-- The initialized session used as a concrete witness input: empty
program, fresh host. -/
def pcInit : ProjConfig :=
  { initialized := true, ensuredBasicFiles := false, ensuredAllFiles := false
    service := some { program := some { sourceFiles := [] } }
    host := some { complete := false, filePaths := [], projectVersion := 1 }
    configFilePath := pth "", configContent := some (pth "cfg")
    expectedFilePaths := [], traceModuleResolution := false }

/-- Witness for C4: on the initialized session with an empty program,
`ensureSourceFile` stages the requested path. -/
theorem C4_ensureSourceFile_stages_iff_program_lacks_witness :
    pcInit.service = some { program := some { sourceFiles := [] } }
    ∧ pcInit.host = some { complete := false, filePaths := [], projectVersion := 1 }
    ∧ ensureSourceFile pcInit (pth "/a.ts")
        = .ok { pcInit with
            host := some (hostAddFile
              { complete := false, filePaths := [], projectVersion := 1 }
              (pth "/a.ts")) } :=
  ⟨rfl, rfl,
    ((C4_ensureSourceFile_stages_iff_program_lacks pcInit
        { program := some { sourceFiles := [] } }
        { complete := false, filePaths := [], projectVersion := 1 }
        (pth "/a.ts") rfl rfl).2
      { sourceFiles := [] } rfl).2 (by simp)⟩

/-- C10: when the language service yields no program, `ensureBasicFiles`
and `ensureAllFiles` return with the session completely unchanged: no
file is staged, `ensuredBasicFiles`/`ensuredAllFiles` stay false and
`host.complete` is not set, so a subsequent call re-runs the whole
staging pass. -/
theorem C10_no_program_returns_unchanged :
    ∀ (an : Analyzer) (fsReadFile : FPath → FPath) (fsPath : FPath)
      (fsUris : List FPath) (c : ProjConfig) (service : TsService)
      (host : TsHost),
      c.initialized = true → c.service = some service →
      c.host = some host → service.program = none →
      ensureBasicFiles an fsReadFile fsPath fsUris c = .ok c
      ∧ ensureAllFiles an fsReadFile fsPath c = .ok c := by
  intro an fsReadFile fsPath fsUris c service host hini hsvc hhost hprog
  have hinit : init an fsReadFile fsPath c = .ok c := by
    simp [init, hini]
  constructor
  · by_cases hb : c.ensuredBasicFiles
    · simp [ensureBasicFiles, hb]
    · simp [ensureBasicFiles, hb, hinit, getProgram, getService, hsvc, hprog]
  · by_cases ha : c.ensuredAllFiles
    · simp [ensureAllFiles, ha]
    · by_cases hc : host.complete <;>
        simp [ensureAllFiles, ha, hinit, getHost, hhost, hc, getProgram,
          getService, hsvc, hprog]

/-- The initialized session whose analyzer declines to produce a
program. -/
def pcNoProgram : ProjConfig :=
  { initialized := true, ensuredBasicFiles := false, ensuredAllFiles := false
    service := some { program := none }
    host := some { complete := false, filePaths := [], projectVersion := 1 }
    configFilePath := pth "", configContent := some (pth "cfg")
    expectedFilePaths := [pth "/a.ts"], traceModuleResolution := false }

/-- Witness for C10: both ensure tiers leave the program-less session
untouched. -/
theorem C10_no_program_returns_unchanged_witness :
    pcNoProgram.initialized = true
    ∧ pcNoProgram.service = some { program := none }
    ∧ ensureBasicFiles anTrivial fsEmptyRead (pth "/root")
        [pth "file:///g.d.ts"] pcNoProgram = .ok pcNoProgram
    ∧ ensureAllFiles anTrivial fsEmptyRead (pth "/root") pcNoProgram
        = .ok pcNoProgram :=
  ⟨rfl, rfl,
    (C10_no_program_returns_unchanged anTrivial fsEmptyRead (pth "/root")
      [pth "file:///g.d.ts"] pcNoProgram { program := none }
      { complete := false, filePaths := [], projectVersion := 1 }
      rfl rfl rfl rfl).1,
    (C10_no_program_returns_unchanged anTrivial fsEmptyRead (pth "/root")
      [pth "file:///g.d.ts"] pcNoProgram { program := none }
      { complete := false, filePaths := [], projectVersion := 1 }
      rfl rfl rfl rfl).2⟩

/-!
## C7: memoized pipelines evict their slot on error

`ensureModuleStructure`, `ensureOwnFiles` and `ensureAllFiles` all
follow the template (source lines 224-300)

  if (!this.slot) {
    this.slot = pipeline
      .do(noop, err => { this.slot = undefined; })
      .publishReplay().refCount();
  }
  return this.slot;

and `resolveReferencedFiles` (source lines 360-406) does the same with a
per-URI map entry.  We model one call together with the resolution of
the signal it returns, under the synchronous semantics of the operator
chain: a cached signal replays its stored outcome; a fresh pipeline is
built with a new attempt identity drawn from a counter, the `do`
error-hook clears the slot (or deletes the map entry) before the error
reaches the subscriber, and on success `publishReplay().refCount()`
retains the signal in the slot.  `outcome` is the external Fetcher's
behavior, per attempt. -/

/-- Whether an attempt of a pipeline succeeds or errors. -/
inductive PipeOutcome | ok | err
deriving DecidableEq, Repr

/-- One memoized-slot call: `(slot, counter) -> (observed attempt,
(new slot, new counter))`.  A hit replays the cached signal; a miss
builds attempt `counter`, whose error-hook clears the slot before the
error surfaces. -/
def memoStep (outcome : Nat → PipeOutcome) :
    Option Nat × Nat → Nat × (Option Nat × Nat)
  | (some attempt, next) => (attempt, (some attempt, next))
  | (none, next) =>
    match outcome next with
    | .ok => (next, (some next, next + 1))
    | .err => (next, (none, next + 1))

/-- The slot state after `n` calls, starting from the empty slot. -/
def memoIter (outcome : Nat → PipeOutcome) : Nat → Option Nat × Nat
  | 0 => (none, 0)
  | n + 1 => (memoStep outcome (memoIter outcome n)).2

/-- The attempt the `(n+1)`-st call's subscribers observe. -/
def memoObserved (outcome : Nat → PipeOutcome) (n : Nat) : Nat :=
  (memoStep outcome (memoIter outcome n)).1

/-- The memoization state of `ProjectManager`: the three ensure-scope
slots, the referenced-files cache, and the attempt counter of the
model. -/
structure EnsureSlots where
  ensuredModuleStructure : Option Nat
  ensuredOwnFiles : Option Nat
  ensuredAllFiles : Option Nat
  referencedFiles : List (FPath × Nat)
  nextAttempt : Nat
deriving DecidableEq, Repr

/-- One `ensureModuleStructure()` call together with the resolution of
its signal. -/
def ensureModuleStructureCall (outcome : Nat → PipeOutcome)
    (pm : EnsureSlots) : Nat × EnsureSlots :=
  let r := memoStep outcome (pm.ensuredModuleStructure, pm.nextAttempt)
  (r.1, { pm with ensuredModuleStructure := r.2.1, nextAttempt := r.2.2 })

/-- One `ensureOwnFiles()` call together with the resolution of its
signal. -/
def ensureOwnFilesCall (outcome : Nat → PipeOutcome)
    (pm : EnsureSlots) : Nat × EnsureSlots :=
  let r := memoStep outcome (pm.ensuredOwnFiles, pm.nextAttempt)
  (r.1, { pm with ensuredOwnFiles := r.2.1, nextAttempt := r.2.2 })

/-- One `ensureAllFiles()` call together with the resolution of its
signal. -/
def ensureAllFilesCall (outcome : Nat → PipeOutcome)
    (pm : EnsureSlots) : Nat × EnsureSlots :=
  let r := memoStep outcome (pm.ensuredAllFiles, pm.nextAttempt)
  (r.1, { pm with ensuredAllFiles := r.2.1, nextAttempt := r.2.2 })

/-- One `resolveReferencedFiles(uri)` call together with the resolution
of its signal: a hit replays the cached entry; a miss builds a fresh
observable, stores it in the map (`this.referencedFiles.set`), and its
error-hook deletes the entry before the error surfaces (set-then-delete
on the error path). -/
def resolveReferencedFilesCall (outcome : Nat → PipeOutcome)
    (pm : EnsureSlots) (uri : FPath) : Nat × EnsureSlots :=
  match cget pm.referencedFiles uri with
  | some attempt => (attempt, pm)
  | none =>
    match outcome pm.nextAttempt with
    | .ok =>
      (pm.nextAttempt,
        { pm with
          referencedFiles := cset pm.referencedFiles uri pm.nextAttempt
          nextAttempt := pm.nextAttempt + 1 })
    | .err =>
      (pm.nextAttempt,
        { pm with
          referencedFiles :=
            cdel (cset pm.referencedFiles uri pm.nextAttempt) uri
          nextAttempt := pm.nextAttempt + 1 })

theorem cdel_cset_not_mem (m : ConfigsMap) (k : FPath) (v : Nat)
    (h : cget m k = none) : cdel (cset m k v) k = m := by
  induction m with
  | nil => simp [cget, cset, cdel]
  | cons hd t ih =>
    obtain ⟨k', v'⟩ := hd
    simp only [cget] at h
    by_cases hk : k' = k
    · rw [if_pos hk] at h
      cases h
    · rw [if_neg hk] at h
      simp only [cset, if_neg hk, cdel, if_neg hk]
      rw [ih h]

theorem memoIter_slot_lt (outcome : Nat → PipeOutcome) :
    ∀ n a, (memoIter outcome n).1 = some a → a < (memoIter outcome n).2 := by
  intro n
  induction n with
  | zero => intro a h; simp [memoIter] at h
  | succ n ih =>
    intro a h
    rw [memoIter] at h ⊢
    rcases hs : memoIter outcome n with ⟨slot, next⟩
    rw [hs] at h
    cases slot with
    | some attempt =>
      simp [memoStep] at h ⊢
      have h1 := ih attempt (by rw [hs])
      rw [hs] at h1
      simp at h1
      omega
    | none =>
      cases ho : outcome next with
      | ok => simp [memoStep, ho] at h ⊢; omega
      | err => simp [memoStep, ho] at h

theorem memoIter_counter_mono (outcome : Nat → PipeOutcome) :
    ∀ n, (memoIter outcome n).2 ≤ (memoIter outcome (n + 1)).2 := by
  intro n
  rw [memoIter]
  rcases hs : memoIter outcome n with ⟨slot, next⟩
  cases slot with
  | some attempt => simp [memoStep]
  | none => cases ho : outcome next with
    | ok => simp [memoStep, ho]
    | err => simp [memoStep, ho]

theorem memoIter_counter_mono_le (outcome : Nat → PipeOutcome) :
    ∀ m n, m ≤ n → (memoIter outcome m).2 ≤ (memoIter outcome n).2 := by
  intro m n h
  induction n with
  | zero => cases Nat.le_zero.mp h; exact le_refl _
  | succ n ih =>
    rcases Nat.le_succ_iff.mp h with h' | h'
    · exact le_trans (ih h') (memoIter_counter_mono outcome n)
    · rw [h']

theorem memoObserved_lt_next_counter (outcome : Nat → PipeOutcome) (n : Nat) :
    memoObserved outcome n < (memoIter outcome (n + 1)).2 := by
  rw [memoObserved, memoIter]
  rcases hs : memoIter outcome n with ⟨slot, next⟩
  cases slot with
  | some attempt =>
    simp [memoStep]
    have := memoIter_slot_lt outcome n attempt (by rw [hs])
    rw [hs] at this
    simpa using this
  | none =>
    cases ho : outcome next with
    | ok => simp [memoStep, ho]
    | err => simp [memoStep, ho]

theorem memoIter_no_cached_error (outcome : Nat → PipeOutcome) :
    ∀ n a, (memoIter outcome n).1 = some a → outcome a = .ok := by
  intro n
  induction n with
  | zero => intro a h; simp [memoIter] at h
  | succ n ih =>
    intro a h
    rw [memoIter] at h
    rcases hs : memoIter outcome n with ⟨slot, next⟩
    rw [hs] at h
    cases slot with
    | some attempt =>
      simp [memoStep] at h
      exact h ▸ ih attempt (by rw [hs])
    | none =>
      cases ho : outcome next with
      | ok => simp [memoStep, ho] at h; exact h ▸ ho
      | err => simp [memoStep, ho] at h

theorem memo_error_then_fresh (outcome : Nat → PipeOutcome) (n : Nat)
    (herr : outcome (memoObserved outcome n) = .err) :
    (memoIter outcome (n + 1)).1 = none
    ∧ ∀ m, m ≤ n → memoObserved outcome m < memoObserved outcome (n + 1) := by
  rcases hs : memoIter outcome n with ⟨slot, next⟩
  cases slot with
  | some attempt =>
    have hok := memoIter_no_cached_error outcome n attempt (by rw [hs])
    have hobs : memoObserved outcome n = attempt := by
      rw [memoObserved, hs]
      simp [memoStep]
    rw [hobs] at herr
    rw [herr] at hok
    cases hok
  | none =>
    have hobs : memoObserved outcome n = next := by
      rw [memoObserved, hs]
      cases ho : outcome next <;> simp [memoStep, ho]
    rw [hobs] at herr
    have hiter : memoIter outcome (n + 1) = (none, next + 1) := by
      rw [memoIter, hs]
      simp [memoStep, herr]
    have hobs1 : memoObserved outcome (n + 1) = next + 1 := by
      rw [memoObserved, hiter]
      cases ho : outcome (next + 1) <;> simp [memoStep, ho]
    refine ⟨by rw [hiter], ?_⟩
    intro m hm
    have h1 := memoObserved_lt_next_counter outcome m
    have h2 := memoIter_counter_mono_le outcome (m + 1) (n + 1) (by omega)
    rw [hiter] at h2
    rw [hobs1]
    simp at h2
    omega

/-- C7: every memoized ensure-pipeline and the referenced-files
resolver evict their memo slot (or cache entry) when the in-flight
signal errors, before the error reaches subscribers, so the very next
invocation starts a fresh attempt instead of replaying a cached error:
for each of the three scope slots an errored call leaves the slot empty
and the immediately following call builds the brand-new attempt;
over any call sequence a cached signal is always a succeeded attempt,
and after an errored call the next observed attempt is strictly newer
than everything observed before; a missing referenced-files entry that
errors leaves the map exactly as it was (set-then-delete), the next call
for that URI re-attempts freshly, a success is cached, and a cached
entry replays without re-running the pipeline. -/
theorem C7_error_evicts_memo_before_surfacing :
    (∀ (outcome : Nat → PipeOutcome) (pm : EnsureSlots),
      pm.ensuredModuleStructure = none → outcome pm.nextAttempt = .err →
        (ensureModuleStructureCall outcome pm).2.ensuredModuleStructure = none
        ∧ (ensureModuleStructureCall outcome
            (ensureModuleStructureCall outcome pm).2).1 = pm.nextAttempt + 1)
    ∧ (∀ (outcome : Nat → PipeOutcome) (pm : EnsureSlots),
      pm.ensuredOwnFiles = none → outcome pm.nextAttempt = .err →
        (ensureOwnFilesCall outcome pm).2.ensuredOwnFiles = none
        ∧ (ensureOwnFilesCall outcome
            (ensureOwnFilesCall outcome pm).2).1 = pm.nextAttempt + 1)
    ∧ (∀ (outcome : Nat → PipeOutcome) (pm : EnsureSlots),
      pm.ensuredAllFiles = none → outcome pm.nextAttempt = .err →
        (ensureAllFilesCall outcome pm).2.ensuredAllFiles = none
        ∧ (ensureAllFilesCall outcome
            (ensureAllFilesCall outcome pm).2).1 = pm.nextAttempt + 1)
    ∧ (∀ (outcome : Nat → PipeOutcome) (n a : Nat),
        (memoIter outcome n).1 = some a → outcome a = .ok)
    ∧ (∀ (outcome : Nat → PipeOutcome) (n : Nat),
        outcome (memoObserved outcome n) = .err →
          (memoIter outcome (n + 1)).1 = none
          ∧ ∀ m, m ≤ n →
              memoObserved outcome m < memoObserved outcome (n + 1))
    ∧ (∀ (outcome : Nat → PipeOutcome) (pm : EnsureSlots) (uri : FPath),
      cget pm.referencedFiles uri = none →
        (outcome pm.nextAttempt = .err →
          (resolveReferencedFilesCall outcome pm uri).2.referencedFiles
              = pm.referencedFiles
          ∧ (resolveReferencedFilesCall outcome
              (resolveReferencedFilesCall outcome pm uri).2 uri).1
            = pm.nextAttempt + 1)
        ∧ (outcome pm.nextAttempt = .ok →
          cget (resolveReferencedFilesCall outcome pm uri).2.referencedFiles
              uri = some pm.nextAttempt))
    ∧ (∀ (outcome : Nat → PipeOutcome) (pm : EnsureSlots) (uri : FPath)
        (a : Nat), cget pm.referencedFiles uri = some a →
          resolveReferencedFilesCall outcome pm uri = (a, pm)) := by
  refine ⟨?_, ?_, ?_, ?_, ?_, ?_, ?_⟩
  · intro outcome pm h1 h2
    refine ⟨by simp [ensureModuleStructureCall, memoStep, h1, h2], ?_⟩
    simp only [ensureModuleStructureCall, memoStep, h1, h2]
    cases ho : outcome (pm.nextAttempt + 1) <;> simp [memoStep, h1, h2, ho]
  · intro outcome pm h1 h2
    refine ⟨by simp [ensureOwnFilesCall, memoStep, h1, h2], ?_⟩
    simp only [ensureOwnFilesCall, memoStep, h1, h2]
    cases ho : outcome (pm.nextAttempt + 1) <;> simp [memoStep, h1, h2, ho]
  · intro outcome pm h1 h2
    refine ⟨by simp [ensureAllFilesCall, memoStep, h1, h2], ?_⟩
    simp only [ensureAllFilesCall, memoStep, h1, h2]
    cases ho : outcome (pm.nextAttempt + 1) <;> simp [memoStep, h1, h2, ho]
  · exact fun outcome n a h => memoIter_no_cached_error outcome n a h
  · exact fun outcome n h => memo_error_then_fresh outcome n h
  · intro outcome pm uri hmiss
    constructor
    · intro herr
      have hmap : (resolveReferencedFilesCall outcome pm uri).2.referencedFiles
          = pm.referencedFiles := by
        simp [resolveReferencedFilesCall, hmiss, herr,
          cdel_cset_not_mem _ _ _ hmiss]
      refine ⟨hmap, ?_⟩
      have hnext : (resolveReferencedFilesCall outcome pm uri).2.nextAttempt
          = pm.nextAttempt + 1 := by
        simp [resolveReferencedFilesCall, hmiss, herr]
      rw [resolveReferencedFilesCall.eq_def]
      rw [hmap, hmiss, hnext]
      cases ho : outcome (pm.nextAttempt + 1) <;> simp
    · intro hok
      simp [resolveReferencedFilesCall, hmiss, hok, cget_cset_self]
  · intro outcome pm uri a hhit
    simp [resolveReferencedFilesCall, hhit]

/-- A Fetcher behavior that fails every attempt. -/
def outcomeAllErr : Nat → PipeOutcome := fun _ => .err

/-- The empty memoization state. -/
def pmEmpty : EnsureSlots :=
  { ensuredModuleStructure := none, ensuredOwnFiles := none
    ensuredAllFiles := none, referencedFiles := [], nextAttempt := 0 }

/-- Witness for C7: with an always-failing Fetcher and the empty state,
an errored `ensureModuleStructure` call leaves the slot empty and the
next call builds attempt 1; an errored `resolveReferencedFiles` call
leaves the cache empty. -/
theorem C7_error_evicts_memo_before_surfacing_witness :
    pmEmpty.ensuredModuleStructure = none
    ∧ outcomeAllErr pmEmpty.nextAttempt = .err
    ∧ ((ensureModuleStructureCall outcomeAllErr pmEmpty).2.ensuredModuleStructure
        = none
      ∧ (ensureModuleStructureCall outcomeAllErr
          (ensureModuleStructureCall outcomeAllErr pmEmpty).2).1
        = pmEmpty.nextAttempt + 1)
    ∧ ((resolveReferencedFilesCall outcomeAllErr pmEmpty
          (pth "file:///a.ts")).2.referencedFiles
        = pmEmpty.referencedFiles
      ∧ (resolveReferencedFilesCall outcomeAllErr
          (resolveReferencedFilesCall outcomeAllErr pmEmpty
            (pth "file:///a.ts")).2 (pth "file:///a.ts")).1
        = pmEmpty.nextAttempt + 1) :=
  ⟨rfl, rfl,
    C7_error_evicts_memo_before_surfacing.1 outcomeAllErr pmEmpty rfl rfl,
    (C7_error_evicts_memo_before_surfacing.2.2.2.2.2.1 outcomeAllErr pmEmpty
      (pth "file:///a.ts") rfl).1 rfl⟩

/-!
## C8: `ensureReferencedFiles` terminates and visits each URI once

Source lines 319-338: the method adds `uri` to the shared `ignore` set,
runs the module-structure prerequisite, and — unless `maxDepth` is 0 —
resolves the file's direct references, filters out those already in
`ignore`, and recurses on each with `maxDepth - 1` and the same set
(passed by reference, so mutations are visible across branches; with
synchronous sources the recursions run sequentially).  `refs` abstracts
`resolveReferencedFiles` (the URIs directly referenced by a URI).  The
model returns the trace of URIs on which the method is invoked (in call
order) together with the final ignore set; the observable's own
emissions are not modelled because `mergeMap` replaces every resolved
URI by the emissions of the recursive call, whose base case is empty.
-/

/-- `Set.add`: insert without duplicating. -/
def insertUri (uri : String) (ignore : List String) : List String :=
  if uri ∈ ignore then ignore else uri :: ignore

mutual

/-- One invocation of `ensureReferencedFiles` on `uri` with the given
recursion budget and ignore set: returns (visited trace, final ignore
set). -/
def ensureReferencedFiles (refs : String → List String) :
    Nat → String → List String → List String × List String
  | maxDepth, uri, ignore =>
    let ignore1 := insertUri uri ignore
    match maxDepth with
    | 0 => ([uri], ignore1)
    | d + 1 => ensureReferencedFilesOver refs d (refs uri) [uri] ignore1
termination_by maxDepth _ _ => (maxDepth, 0)

/-- The `filter`/`mergeMap` stage: recurse (at the decremented depth)
over each resolved reference not yet in the ignore set, threading the
set and accumulating the trace. -/
def ensureReferencedFilesOver (refs : String → List String) :
    Nat → List String → List String → List String →
      List String × List String
  | _, [], trace, ignore => (trace, ignore)
  | d, referencedUri :: rest, trace, ignore =>
    if referencedUri ∈ ignore then
      ensureReferencedFilesOver refs d rest trace ignore
    else
      let p := ensureReferencedFiles refs d referencedUri ignore
      ensureReferencedFilesOver refs d rest (trace ++ p.1) p.2
termination_by d rest _ _ => (d, rest.length + 1)

end

theorem ensureReferencedFilesOver_spec (refs : String → List String) (d : Nat)
    (hP : ∀ uri ig, uri ∉ ig →
      (ensureReferencedFiles refs d uri ig).1.Nodup
      ∧ (∀ x ∈ (ensureReferencedFiles refs d uri ig).1, x ∉ ig)
      ∧ (∀ x, x ∈ (ensureReferencedFiles refs d uri ig).2
          ↔ x ∈ ig ∨ x ∈ (ensureReferencedFiles refs d uri ig).1)) :
    ∀ (rs tr ig : List String), tr.Nodup → (∀ x ∈ tr, x ∈ ig) →
      ∃ fresh,
        (ensureReferencedFilesOver refs d rs tr ig).1 = tr ++ fresh
        ∧ fresh.Nodup
        ∧ (∀ x ∈ fresh, x ∉ ig)
        ∧ (∀ x, x ∈ (ensureReferencedFilesOver refs d rs tr ig).2
            ↔ x ∈ ig ∨ x ∈ fresh) := by
  intro rs
  induction rs with
  | nil =>
    intro tr ig htr hsub
    refine ⟨[], by simp [ensureReferencedFilesOver], by simp, by simp,
      by simp [ensureReferencedFilesOver]⟩
  | cons r rest ih =>
    intro tr ig htr hsub
    by_cases hr : r ∈ ig
    · have hstep : ensureReferencedFilesOver refs d (r :: rest) tr ig
          = ensureReferencedFilesOver refs d rest tr ig := by
        rw [ensureReferencedFilesOver]
        simp [hr]
      rw [hstep]
      exact ih tr ig htr hsub
    · have hp := hP r ig hr
      have hstep : ensureReferencedFilesOver refs d (r :: rest) tr ig
          = ensureReferencedFilesOver refs d rest
              (tr ++ (ensureReferencedFiles refs d r ig).1)
              (ensureReferencedFiles refs d r ig).2 := by
        rw [ensureReferencedFilesOver]
        simp [hr]
      have hq1sub : ∀ x ∈ (ensureReferencedFiles refs d r ig).1,
          x ∈ (ensureReferencedFiles refs d r ig).2 :=
        fun x hx => (hp.2.2 x).mpr (Or.inr hx)
      have higsub : ∀ x ∈ ig, x ∈ (ensureReferencedFiles refs d r ig).2 :=
        fun x hx => (hp.2.2 x).mpr (Or.inl hx)
      have htr' : (tr ++ (ensureReferencedFiles refs d r ig).1).Nodup := by
        rw [List.nodup_append]
        refine ⟨htr, hp.1, ?_⟩
        intro x hx hx'
        exact hp.2.1 x hx' (hsub x hx)
      have hsub' : ∀ x ∈ tr ++ (ensureReferencedFiles refs d r ig).1,
          x ∈ (ensureReferencedFiles refs d r ig).2 := by
        intro x hx
        rcases List.mem_append.mp hx with hx | hx
        · exact higsub x (hsub x hx)
        · exact hq1sub x hx
      obtain ⟨fresh, hres, hnf, hfig, hig⟩ :=
        ih (tr ++ (ensureReferencedFiles refs d r ig).1)
          (ensureReferencedFiles refs d r ig).2 htr' hsub'
      refine ⟨(ensureReferencedFiles refs d r ig).1 ++ fresh, ?_, ?_, ?_, ?_⟩
      · rw [hstep, hres, List.append_assoc]
      · rw [List.nodup_append]
        refine ⟨hp.1, hnf, ?_⟩
        intro x hx hx'
        exact hfig x hx' (hq1sub x hx)
      · intro x hx
        rcases List.mem_append.mp hx with hx | hx
        · exact hp.2.1 x hx
        · exact fun hxig => hfig x hx (higsub x hxig)
      · intro x
        rw [hstep]
        rw [hig x]
        rw [hp.2.2 x]
        rw [List.mem_append]
        tauto

theorem ensureReferencedFiles_spec (refs : String → List String) :
    ∀ (d : Nat) (uri : String) (ig : List String), uri ∉ ig →
      (ensureReferencedFiles refs d uri ig).1.Nodup
      ∧ (∀ x ∈ (ensureReferencedFiles refs d uri ig).1, x ∉ ig)
      ∧ (∀ x, x ∈ (ensureReferencedFiles refs d uri ig).2
          ↔ x ∈ ig ∨ x ∈ (ensureReferencedFiles refs d uri ig).1) := by
  intro d
  induction d with
  | zero =>
    intro uri ig h
    have hstep : ensureReferencedFiles refs 0 uri ig = ([uri], uri :: ig) := by
      rw [ensureReferencedFiles]
      simp [insertUri, h]
    rw [hstep]
    refine ⟨by simp, by simp [h], ?_⟩
    intro x
    simp [List.mem_cons]
    tauto
  | succ d ih =>
    intro uri ig h
    have hstep : ensureReferencedFiles refs (d + 1) uri ig
        = ensureReferencedFilesOver refs d (refs uri) [uri] (uri :: ig) := by
      rw [ensureReferencedFiles]
      simp [insertUri, h]
    obtain ⟨fresh, hres, hnf, hfig, hig⟩ :=
      ensureReferencedFilesOver_spec refs d ih (refs uri) [uri] (uri :: ig)
        (by simp) (by simp)
    rw [hstep]
    refine ⟨?_, ?_, ?_⟩
    · rw [hres]
      rw [List.nodup_append]
      refine ⟨by simp, hnf, ?_⟩
      intro x hx hx'
      rcases List.mem_singleton.mp hx with rfl
      exact hfig x hx' (List.mem_cons_self _ _)
    · intro x hx
      rw [hres] at hx
      rcases List.mem_append.mp hx with hx | hx
      · rcases List.mem_singleton.mp hx with rfl
        exact h
      · intro hxig
        exact hfig x hx (List.mem_cons_of_mem _ hxig)
    · intro x
      rw [hres]
      rw [hig x]
      rw [List.mem_append]
      simp [List.mem_cons, List.mem_singleton]
      tauto

/-- The two-file cycle of the claim: `a` imports `b` and `b` imports
`a`. -/
def cycleRefs : String → List String :=
  fun u => if u = "a" then ["b"] else if u = "b" then ["a"] else []

/-- C8: `ensureReferencedFiles` is total (it is a function of this
development, so it terminates on every reference graph, cyclic ones
included); per top-level call the trace of URIs it is invoked on has no
duplicates (each URI is visited at most once, thanks to the ignore set
threaded through the recursion); with `maxDepth = 0` it visits only the
input URI and emits nothing beyond the module-structure prerequisite;
and on the two-file cycle it terminates having visited `a` and `b`
exactly once each. -/
theorem C8_ensureReferencedFiles_terminates_visits_once :
    (∀ (refs : String → List String) (d : Nat) (uri : String),
      (ensureReferencedFiles refs d uri []).1.Nodup)
    ∧ (∀ (refs : String → List String) (uri : String),
      ensureReferencedFiles refs 0 uri [] = ([uri], [uri]))
    ∧ ensureReferencedFiles cycleRefs 30 "a" [] = (["a", "b"], ["b", "a"]) := by
  refine ⟨?_, ?_, ?_⟩
  · intro refs d uri
    exact (ensureReferencedFiles_spec refs d uri [] (by simp)).1
  · intro refs uri
    rw [ensureReferencedFiles]
    simp [insertUri]
  · simp [ensureReferencedFiles, ensureReferencedFilesOver, cycleRefs,
      insertUri]

/-!
## C9: triple-slash path reference resolution

Source line 387:

  .map(referencedFile => pathResolver.resolve(this.rootPath,
      pathResolver.dirname(referencingFilePath),
      toUnixPath(referencedFile.fileName)))

with `pathResolver = referencingFilePath.includes('\\') ? path.win32 :
path.posix` (line 373).  The `path` module is an external dependency;
`posixDirname`, `posixResolve`, `posixJoin` and `posixNormalize` below
model Node's `path.posix` functions (resolve processes its arguments
right to left and stops at the first absolute one, prepending the
working directory `cwd` only when none is absolute); the win32 variants
are modelled, for drive-letter-free paths, as the posix ones after
backslash normalization.
-/

/-- Node `path.posix.dirname`. -/
def posixDirname (p : FPath) : FPath :=
  match p with
  | [] => ['.']
  | c0 :: rest =>
    let hasRoot := c0 = '/'
    let trimmed := rest.reverse.dropWhile (fun c => c = '/')
    let afterSlash := trimmed.dropWhile (fun c => c ≠ '/')
    match afterSlash with
    | [] => if hasRoot then ['/'] else ['.']
    | _ :: preRev =>
      if hasRoot ∧ preRev = [] then ['/', '/']
      else c0 :: preRev.reverse

/-- The component-stack normalization of Node's `normalizeString`:
drop empty and `.` components; on `..` pop a component, or keep the
`..` when nothing can be popped and we may go above the root. -/
def normStack (allowAbove : Bool) : List FPath → List FPath → List FPath
  | stack, [] => stack.reverse
  | stack, comp :: rest =>
    if comp = [] ∨ comp = ['.'] then normStack allowAbove stack rest
    else if comp = ['.', '.'] then
      match stack with
      | [] => if allowAbove then normStack allowAbove [comp] rest
              else normStack allowAbove [] rest
      | top :: stackRest =>
        if top = ['.', '.'] then normStack allowAbove (comp :: stack) rest
        else normStack allowAbove stackRest rest
    else normStack allowAbove (comp :: stack) rest

/-- The right-to-left accumulation loop of Node `path.posix.resolve`:
arguments are processed last-to-first (the input list here is already
reversed), empty ones skipped, each prepended with a slash separator,
stopping at the first absolute one; `cwd` is prepended when no argument
is absolute. -/
def resolveCollectAux (cwd : FPath) (acc : FPath) :
    List FPath → FPath × Bool
  | [] => (cwd ++ '/' :: acc, cwd.head? = some '/')
  | p :: rest =>
    if p = [] then resolveCollectAux cwd acc rest
    else
      let acc' := p ++ '/' :: acc
      if p.head? = some '/' then (acc', true)
      else resolveCollectAux cwd acc' rest

/-- Node `path.posix.resolve(parts...)` with explicit working directory
`cwd`. -/
def posixResolve (cwd : FPath) (parts : List FPath) : FPath :=
  let collected := resolveCollectAux cwd [] parts.reverse
  let comps := normStack (!collected.2) [] (collected.1.splitOn '/')
  let joined := List.intercalate ['/'] comps
  if collected.2 then '/' :: joined
  else if joined = [] then ['.'] else joined

/-- Node `path.posix.normalize`. -/
def posixNormalize (p : FPath) : FPath :=
  if p = [] then ['.']
  else
    let absolute := p.head? = some '/'
    let trailingSep := p.getLast? = some '/'
    let comps := normStack (!absolute) [] (p.splitOn '/')
    let core := List.intercalate ['/'] comps
    let core1 := if core = [] ∧ ¬absolute then ['.'] else core
    let core2 := if core1 ≠ [] ∧ trailingSep then core1 ++ ['/'] else core1
    if absolute then '/' :: core2 else core2

/-- Node `path.posix.join`: concatenate the non-empty arguments with
slashes and normalize. -/
def posixJoin (parts : List FPath) : FPath :=
  let nonEmpty := parts.filter (fun p => p ≠ [])
  if nonEmpty = [] then ['.']
  else posixNormalize (List.intercalate ['/'] nonEmpty)

/-- Modelled from Node's docs for drive-letter-free paths:
`path.win32.dirname` treats both separators. -/
def win32Dirname (p : FPath) : FPath := posixDirname (toUnixPath p)

/-- Modelled from Node's docs for drive-letter-free paths:
`path.win32.resolve` treats both separators. -/
def win32Resolve (cwd : FPath) (parts : List FPath) : FPath :=
  posixResolve cwd (parts.map toUnixPath)

/-- Modelled from Node's docs for drive-letter-free paths:
`path.win32.join` treats both separators. -/
def win32Join (parts : List FPath) : FPath :=
  posixJoin (parts.map toUnixPath)

/-- The resolver applied to one triple-slash path reference (source
lines 373 and 387): Windows-style when the referencing path contains a
backslash, POSIX otherwise; `resolve(rootPath, dirname(referencing),
toUnixPath(name))`. -/
def resolveTripleSlashRef (cwd rootPath referencingFilePath
    fileName : FPath) : FPath :=
  if containsSub referencingFilePath (pth "\\") then
    win32Resolve cwd
      [rootPath, win32Dirname referencingFilePath, toUnixPath fileName]
  else
    posixResolve cwd
      [rootPath, posixDirname referencingFilePath, toUnixPath fileName]

/-- The resolution as the claim words it: the path obtained by *joining*
the workspace root with the referencing file's directory and the
referenced name (POSIX joining, or Windows-style when the referencing
path contains a backslash).  Stated from the spec's words for
comparison with `resolveTripleSlashRef`. -/
def claimTripleSlashJoin (rootPath referencingFilePath
    fileName : FPath) : FPath :=
  if containsSub referencingFilePath (pth "\\") then
    win32Join
      [rootPath, win32Dirname referencingFilePath, toUnixPath fileName]
  else
    posixJoin
      [rootPath, posixDirname referencingFilePath, toUnixPath fileName]

theorem resolveCollectAux_stops_at_absolute (cwd cwd' acc : FPath)
    (n dir root root' : FPath) (hdir : dir.head? = some '/') :
    resolveCollectAux cwd acc [n, dir, root]
      = resolveCollectAux cwd' acc [n, dir, root'] := by
  have hdirne : dir ≠ [] := by
    intro h
    rw [h] at hdir
    simp at hdir
  by_cases hn : n = []
  · simp [resolveCollectAux, hn, hdirne, hdir]
  · by_cases hnabs : n.head? = some '/'
    · simp [resolveCollectAux, hn, hnabs]
    · simp [resolveCollectAux, hn, hnabs, hdirne, hdir]

/-- C9 counterexample: for the referencing file `/root/src/a.ts` (no
backslash, so POSIX) and referenced name `b.d.ts`, the code's resolver
yields `/root/src/b.d.ts` — `resolve` processes its arguments right to
left and stops at the absolute directory, so the workspace root `/root`
is ignored — whereas the path obtained by *joining* the workspace root
with the referencing file's directory and the referenced name, as the
claim words it, is `/root/root/src/b.d.ts`.  The two differ. -/
theorem C9_resolve_vs_join_counterexample :
    resolveTripleSlashRef (pth "/") (pth "/root") (pth "/root/src/a.ts")
        (pth "b.d.ts") = pth "/root/src/b.d.ts"
    ∧ claimTripleSlashJoin (pth "/root") (pth "/root/src/a.ts")
        (pth "b.d.ts") = pth "/root/root/src/b.d.ts"
    ∧ resolveTripleSlashRef (pth "/") (pth "/root") (pth "/root/src/a.ts")
        (pth "b.d.ts")
      ≠ claimTripleSlashJoin (pth "/root") (pth "/root/src/a.ts")
        (pth "b.d.ts") := by
  refine ⟨by decide, by decide, by decide⟩

/-- C9 as amended: the resolver yields
`pathResolver.resolve(rootPath, dirname(referencing), toUnixPath(name))`
— Node `resolve`, not a join — with POSIX resolution unless the
referencing path contains a backslash, and no existence check; since
`resolve` works right to left, whenever the referencing file's directory
is absolute (the normal case: URIs map to absolute paths) the workspace
root — and the working directory — contribute nothing to the result. -/
theorem C9_resolve_ignores_root_when_dir_absolute :
    ∀ (cwd cwd' rootPath rootPath' p name : FPath),
      containsSub p (pth "\\") = false →
      (posixDirname p).head? = some '/' →
      resolveTripleSlashRef cwd rootPath p name
        = resolveTripleSlashRef cwd' rootPath' p name := by
  intro cwd cwd' rootPath rootPath' p name hbs hdir
  have hrev : ∀ (a b c : FPath), ([a, b, c] : List FPath).reverse = [c, b, a] :=
    fun a b c => rfl
  have h := resolveCollectAux_stops_at_absolute cwd cwd' []
    (toUnixPath name) (posixDirname p) rootPath rootPath' hdir
  simp only [resolveTripleSlashRef, hbs, Bool.false_eq_true, if_false]
  unfold posixResolve
  rw [hrev, hrev, h]

/-- Witness for C9: the amended theorem at `/root/src/a.ts` and
`b.d.ts`: two different roots and working directories resolve to the
same path. -/
theorem C9_resolve_ignores_root_when_dir_absolute_witness :
    containsSub (pth "/root/src/a.ts") (pth "\\") = false
    ∧ (posixDirname (pth "/root/src/a.ts")).head? = some '/'
    ∧ resolveTripleSlashRef (pth "/cwd1") (pth "/root")
        (pth "/root/src/a.ts") (pth "b.d.ts")
      = resolveTripleSlashRef (pth "/cwd2") (pth "/other")
        (pth "/root/src/a.ts") (pth "b.d.ts") :=
  ⟨by decide, by decide,
    C9_resolve_ignores_root_when_dir_absolute (pth "/cwd1") (pth "/cwd2")
      (pth "/root") (pth "/other") (pth "/root/src/a.ts") (pth "b.d.ts")
      (by decide) (by decide)⟩
